import Mathlib

/-!
Verification development for `emotiw/dauphiya/ml.py`, a Theano-based library of
RBMs (binary, Gaussian, multi-modal "SetRBM"), MLPs and an RNN.

Shallow embedding conventions:
* numpy/Theano dense arrays are embedded as `List (List ℚ)` (row major);
  vectors as `List ℚ`.
* The external engine's transcendental kernels (`T.nnet.sigmoid`, `T.log`,
  `T.exp`, `T.tanh`, `numpy.sqrt`) are abstract function parameters bundled in
  `ExtF`; the glue code under verification never inspects their values.
* Random sampling (`RandomStreams.binomial/normal/…`, `numpy.random.uniform`)
  is modelled by an explicit stream `Rng : Nat → ℚ` of uniform draws together
  with a position counter; a Bernoulli draw with success probability `p`
  consumes one stream value `u` and yields `1` when `u < p`, a normal draw
  with mean `m` and std `1` consumes one value `u` and yields `m + u`.
* Theano `updates` dictionaries are embedded as explicit lists of assignments
  applied to the model state by a fold, mirroring how `theano.function`
  applies its updates when the compiled function is called.
-/

unseal Rat.add Rat.mul Rat.inv Rat.sub

namespace ML

abbrev Vec := List ℚ
abbrev Mat := List Vec

/-- Dot product of two rows (numpy `dot` on vectors). -/
def dotL (a b : Vec) : ℚ := (List.zipWith (fun x y => x * y) a b).sum

def nrows (m : Mat) : Nat := m.length

def ncols (m : Mat) : Nat := (m.headD []).length

/-- Transpose of a rectangular matrix (`W.T`). -/
def transposeM (m : Mat) : Mat :=
  (List.range (ncols m)).map (fun j => m.map (fun row => row.getD j 0))

/-- Matrix product (`T.dot` on matrices). -/
def matMul (a b : Mat) : Mat :=
  a.map (fun row => (transposeM b).map (fun col => dotL row col))

/-- Broadcast addition of a bias row to every row (`T.dot(v, W) + c`). -/
def addRow (m : Mat) (c : Vec) : Mat :=
  m.map (fun row => List.zipWith (fun x y => x + y) row c)

def mapMat (f : ℚ → ℚ) (m : Mat) : Mat := m.map (fun row => row.map f)

def subMat (a b : Mat) : Mat :=
  List.zipWith (fun r s => List.zipWith (fun x y => x - y) r s) a b

def smulMat (e : ℚ) (m : Mat) : Mat := mapMat (fun x => e * x) m

def subVec (a b : Vec) : Vec := List.zipWith (fun x y => x - y) a b

def smulVec (e : ℚ) (v : Vec) : Vec := v.map (fun x => e * x)

/-- Mean of a vector (`T.mean`). -/
def meanQ (v : Vec) : ℚ := v.sum / (v.length : ℚ)

def zerosV (n : Nat) : Vec := List.replicate n 0

def zerosM (r c : Nat) : Mat := List.replicate r (zerosV c)

/-- A stream of uniform draws from the external random number generator. -/
abbrev Rng := Nat → ℚ

/-- Number of scalar draws an elementwise sampling op on `m` consumes. -/
def matSize (m : Mat) : Nat := nrows m * ncols m

/-- Elementwise Bernoulli sampling (`rng.binomial(n=1, p=p)`): element `(i,j)`
consumes the stream value at position `t + i * ncols p + j`. -/
def bernMat (r : Rng) (t : Nat) (p : Mat) : Mat :=
  p.enum.map (fun ir =>
    ir.2.enum.map (fun jx =>
      if r (t + ir.1 * ncols p + jx.1) < jx.2 then (1 : ℚ) else 0))

/-- Elementwise unit-variance normal sampling (`rng.normal(std=1, avg=avg)`),
modelled as mean plus one stream draw per element. -/
def normMat (r : Rng) (t : Nat) (avg : Mat) : Mat :=
  avg.enum.map (fun ir =>
    ir.2.enum.map (fun jx => jx.2 + r (t + ir.1 * ncols avg + jx.1)))

/-- Abstract external scalar kernels delegated to the engine. -/
structure ExtF where
  sig : ℚ → ℚ
  lg : ℚ → ℚ
  ex : ℚ → ℚ
  th : ℚ → ℚ
  sq : ℚ → ℚ

/-- `T.nnet.softplus`, i.e. `log(1 + exp z)` in terms of the abstract kernels. -/
def softplusQ (E : ExtF) (z : ℚ) : ℚ := E.lg (1 + E.ex z)

/-! ## The `symbolic` decorator (ml.py lines 11-49)

A wrapped method holds a compiled-function cache on the instance (the
attribute `'__' + method name`).  A call with a symbolic first argument
traces the graph and neither compiles nor caches; the first concrete call
compiles `theano.function(inputs, output, updates)` and stores it; later
concrete calls reuse the stored function.  The semantics of the compiled
function is the method itself acting on the current shared-variable store
`σ` and the concrete argument, returning a result and the updated store. -/

/-- Cache slot for one wrapped method, together with a compile counter used
to state "compiled once". -/
structure SymCache (σ α β : Type) where
  cache : Option (σ → α → β × σ)
  compiles : Nat

/-- An invocation argument: a symbolic variable or concrete data. -/
inductive CallArg (α : Type) where
  | symb : CallArg α
  | conc : α → CallArg α

/-- One invocation of the wrapped method (the `wrapper` closure). -/
def symbolicCall {σ α β : Type} (method : σ → α → β × σ)
    (st : SymCache σ α β) (store : σ) (arg : CallArg α) :
    Option β × σ × SymCache σ α β :=
  match arg with
  | CallArg.symb => (none, store, st)
  | CallArg.conc a =>
    match st.cache with
    | some f => ((f store a).1, (f store a).2, st)
    | none =>
        ((method store a).1, (method store a).2,
          ⟨some method, st.compiles + 1⟩)

/-- A sequence of invocations threading the shared store and the cache. -/
def symbolicCalls {σ α β : Type} (method : σ → α → β × σ) :
    List (CallArg α) → σ → SymCache σ α β →
      List (Option β) × σ × SymCache σ α β
  | [], store, st => ([], store, st)
  | a :: rest, store, st =>
    let r := symbolicCall method st store a
    let rr := symbolicCalls method rest r.2.1 r.2.2
    (r.1 :: rr.1, rr.2.1, rr.2.2)

/-- Reference semantics: each concrete call just runs the symbolic definition
on the current store, a symbolic call leaves the store unchanged. -/
def specRun {σ α β : Type} (method : σ → α → β × σ) :
    List (CallArg α) → σ → List (Option β) × σ
  | [], store => ([], store)
  | CallArg.symb :: rest, store =>
    let rr := specRun method rest store
    (none :: rr.1, rr.2)
  | CallArg.conc a :: rest, store =>
    let rr := specRun method rest (method store a).2
    (some (method store a).1 :: rr.1, rr.2)

/-- Whether a call list contains at least one concrete invocation. -/
def hasConc {α : Type} : List (CallArg α) → Bool
  | [] => false
  | CallArg.symb :: rest => hasConc rest
  | CallArg.conc _ :: _ => true

/-! ## BinaryRBM (ml.py lines 52-330)

State: weight matrix `W` (n_visibles × n_hiddens), visible biases `b`, hidden
biases `c`, the persistent fantasy particles `h_samples`
(n_samples × n_hiddens), and the shared perturbation index `bit_i` created
inside `_pseudo_likelihood` (one per instance, since `_fit` is compiled
once).  Hyperparameters `K`, `epsilon`, `n_samples`, `n_hiddens` are instance
attributes. -/

structure BRBM where
  W : Mat
  b : Vec
  c : Vec
  h_samples : Mat
  bit_i : Nat
  K : Nat
  epsilon : ℚ
  n_samples : Nat
  n_hiddens : Nat

/-- `mean_h`: `sigmoid(dot(v, W) + c)`. -/
def binMeanH (E : ExtF) (s : BRBM) (v : Mat) : Mat :=
  mapMat E.sig (addRow (matMul v s.W) s.c)

/-- `sample_h`: `rng.binomial(n=1, p=mean_h(v))`, returning the sample and the
advanced stream position. -/
def binSampleH (E : ExtF) (s : BRBM) (r : Rng) (t : Nat) (v : Mat) : Mat × Nat :=
  (bernMat r t (binMeanH E s v), t + matSize (binMeanH E s v))

/-- `mean_v`: `sigmoid(dot(h, W.T) + b)`. -/
def binMeanV (E : ExtF) (s : BRBM) (h : Mat) : Mat :=
  mapMat E.sig (addRow (matMul h (transposeM s.W)) s.b)

/-- `sample_v`: `rng.binomial(n=1, p=mean_v(h))`. -/
def binSampleV (E : ExtF) (s : BRBM) (r : Rng) (t : Nat) (h : Mat) : Mat × Nat :=
  (bernMat r t (binMeanV E s h), t + matSize (binMeanV E s h))

/-- Binary free energy as a function of an explicit parameter triple
`(W, b, c)`: `-dot(v, b) - log(1 + exp(dot(v, W) + c)).sum(1)`, one entry per
row of `v`. -/
def binFreeEnergyP (E : ExtF) (W : Mat) (b : Vec) (c : Vec) (v : Mat) : Vec :=
  List.zipWith (fun row z => -(dotL row b) - (z.map (softplusQ E)).sum)
    v (addRow (matMul v W) c)

/-- `free_energy` of the model state. -/
def binFreeEnergy (E : ExtF) (s : BRBM) (v : Mat) : Vec :=
  binFreeEnergyP E s.W s.b s.c v

/-- `gibbs`: one MCMC step, `v ↦ sample_v(sample_h(v))`. -/
def binGibbs (E : ExtF) (s : BRBM) (r : Rng) (t : Nat) (v : Mat) : Mat × Nat :=
  let hs := binSampleH E s r t v
  binSampleV E s r hs.2 hs.1

/-- Parameter triple `(W, b, c)` handed to the gradient engine. -/
abbrev Params3 := Mat × Vec × Vec

/-- Abstract `T.grad`: gradient of a scalar function of the parameter triple,
evaluated at a point.  The engine is external; only the glue around it is
verified. -/
abbrev TGrad3 := (Params3 → ℚ) → Params3 → Params3

/-- One assignment of the Theano `updates` dictionary built by `_fit`. -/
inductive BUpd where
  | uW : Mat → BUpd
  | ub : Vec → BUpd
  | uc : Vec → BUpd
  | uh : Mat → BUpd
  | ubit : Nat → BUpd

def applyBUpd (s : BRBM) : BUpd → BRBM
  | BUpd.uW m => { s with W := m }
  | BUpd.ub v => { s with b := v }
  | BUpd.uc v => { s with c := v }
  | BUpd.uh m => { s with h_samples := m }
  | BUpd.ubit n => { s with bit_i := n }

def applyBUpds (s : BRBM) (l : List BUpd) : BRBM := l.foldl applyBUpd s

/-- Flip column `j` of a 0/1 matrix: `T.set_subtensor(v[:, j], 1 - v[:, j])`. -/
def flipCol (m : Mat) (j : Nat) : Mat :=
  m.map (fun row => row.enum.map (fun p => if p.1 = j then 1 - p.2 else p.2))

/-- `_pseudo_likelihood`: free-energy comparison between `v_pos` and `v_pos`
with column `bit_i` flipped; also emits the update
`bit_i ↦ (bit_i + 1) % v_pos.shape[1]` that the source adds to the updates
dictionary. -/
def binPseudoLik (E : ExtF) (s : BRBM) (v_pos : Mat) : ℚ × BUpd :=
  let fe := binFreeEnergy E s v_pos
  let fe2 := binFreeEnergy E s (flipCol v_pos s.bit_i)
  (meanQ (List.zipWith
      (fun a a2 => (ncols v_pos : ℚ) * E.lg (E.sig (a2 - a))) fe fe2),
    BUpd.ubit ((s.bit_i + 1) % ncols v_pos))

/-- One iteration of the `for _ in range(self.K)` loop of `BinaryRBM._fit`:
`v_neg = sample_v(h_neg); h_neg = sample_h(v_neg)` acting on the loop state
`(v_neg?, h_neg, stream position)`. -/
def binFitStep (E : ExtF) (s : BRBM) (r : Rng) (p : Option Mat × Mat × Nat) :
    Option Mat × Mat × Nat :=
  let v := binSampleV E s r p.2.2 p.2.1
  let h := binSampleH E s r v.2 v.1
  (some v.1, h.1, h.2)

/-- The `for _ in range(n)` loop of `BinaryRBM._fit` run for `n` iterations
from the fantasy particles; `v_neg` starts unbound (`none`), exactly as in
the Python source where `K = 0` would leave `v_neg` undefined. -/
def binFitChainN (E : ExtF) (s : BRBM) (r : Rng) (t : Nat) (n : Nat) :
    Option Mat × Mat × Nat :=
  (List.range n).foldl (fun acc _ => binFitStep E s r acc)
    (none, s.h_samples, t)

/-- The negative chain of `BinaryRBM._fit`: `K` loop iterations. -/
def binFitChain (E : ExtF) (s : BRBM) (r : Rng) (t : Nat) :
    Option Mat × Mat × Nat :=
  binFitChainN E s r t s.K

/-- `BinaryRBM._fit`: run the chain, build the cost
`mean(free_energy(v_pos)) - mean(free_energy(v_neg))` with the chain value
`v_neg` held fixed inside the differentiated function
(`consider_constant=[v_neg]`), and emit the updates dictionary.  Returns
`none` when `K = 0` (the source would raise `NameError`). -/
def binFit (E : ExtF) (G : TGrad3) (s : BRBM) (r : Rng) (t : Nat)
    (v_pos : Mat) : Option (ℚ × List BUpd × Nat) :=
  match binFitChain E s r t with
  | (none, _, _) => none
  | (some v_neg, h_neg, t') =>
    let costFn := fun p : Params3 =>
      meanQ (binFreeEnergyP E p.1 p.2.1 p.2.2 v_pos) -
        meanQ (binFreeEnergyP E p.1 p.2.1 p.2.2 v_neg)
    let g := G costFn (s.W, s.b, s.c)
    let pl := binPseudoLik E s v_pos
    some (pl.1,
      [BUpd.uW (subMat s.W (smulMat s.epsilon g.1)),
       BUpd.ub (subVec s.b (smulVec s.epsilon g.2.1)),
       BUpd.uc (subVec s.c (smulVec s.epsilon g.2.2)),
       BUpd.uh h_neg,
       pl.2],
      t')

/-- Draws for `numpy.random.normal(0, scale, (rows, cols))`, modelled as
`scale` times one stream value per entry. -/
def gaussDraws (r : Rng) (t : Nat) (rows cols : Nat) (scale : ℚ) : Mat :=
  (List.range rows).map (fun i =>
    (List.range cols).map (fun j => scale * r (t + i * cols + j)))

/-- The initialization guard at the top of `BinaryRBM.fit`: when
`W.shape[1] == 0`, draw `W`, zero `b`, `c` and the fantasy particles. -/
def binFitInit (ir : Rng) (t : Nat) (s : BRBM) (n_in : Nat) : BRBM × Nat :=
  if ncols s.W = 0 then
    ({ s with
        W := gaussDraws ir t n_in s.n_hiddens (1 / 100)
        c := zerosV s.n_hiddens
        b := zerosV n_in
        h_samples := zerosM s.n_samples s.n_hiddens },
      t + n_in * s.n_hiddens)
  else (s, t)

/-- The minibatch loop of `BinaryRBM.fit` for one epoch: each step calls the
compiled `_fit` and lets `theano.function` apply its updates dictionary.  The
shuffling and slicing of `X` into minibatches is abstracted into the given
batch list. -/
def binFitBatches (E : ExtF) (G : TGrad3) (r : Rng) :
    List Mat → BRBM → Nat → Option (BRBM × Nat)
  | [], s, t => some (s, t)
  | v :: rest, s, t =>
    match binFit E G s r t v with
    | none => none
    | some lut => binFitBatches E G r rest (applyBUpds s lut.2.1) lut.2.2

/-! ## GaussianRBM (ml.py lines 333-603)

Same state as the binary RBM except that `_pseudo_likelihood` is replaced by
a pure `_reconstruction_error` (no shared index), `mean_v` is linear and the
negative chain sets the visibles to their conditional mean instead of
sampling them. -/

structure GRBM where
  W : Mat
  b : Vec
  c : Vec
  h_samples : Mat
  K : Nat
  epsilon : ℚ
  n_samples : Nat
  n_hiddens : Nat

/-- `GaussianRBM.mean_h`: `sigmoid(dot(v, W) + c)`. -/
def gaussMeanH (E : ExtF) (s : GRBM) (v : Mat) : Mat :=
  mapMat E.sig (addRow (matMul v s.W) s.c)

/-- `GaussianRBM.sample_h`: Bernoulli sample of `mean_h`. -/
def gaussSampleH (E : ExtF) (s : GRBM) (r : Rng) (t : Nat) (v : Mat) :
    Mat × Nat :=
  (bernMat r t (gaussMeanH E s v), t + matSize (gaussMeanH E s v))

/-- `GaussianRBM.mean_v`: the linear conditional mean `dot(h, W.T) + b`. -/
def gaussMeanV (s : GRBM) (h : Mat) : Mat :=
  addRow (matMul h (transposeM s.W)) s.b

/-- `GaussianRBM.sample_v`: `rng.normal(std=1, avg=mean_v(h))`. -/
def gaussSampleV (s : GRBM) (r : Rng) (t : Nat) (h : Mat) : Mat × Nat :=
  (normMat r t (gaussMeanV s h), t + matSize (gaussMeanV s h))

/-- Gaussian free energy of an explicit parameter triple:
`-((v - b)**2).sum(1) - log(1 + exp(dot(v, W) + c)).sum(1)`. -/
def gaussFreeEnergyP (E : ExtF) (W : Mat) (b : Vec) (c : Vec) (v : Mat) : Vec :=
  List.zipWith
    (fun row z =>
      -(List.zipWith (fun x y => (x - y) ^ 2) row b).sum -
        (z.map (softplusQ E)).sum)
    v (addRow (matMul v W) c)

def gaussFreeEnergy (E : ExtF) (s : GRBM) (v : Mat) : Vec :=
  gaussFreeEnergyP E s.W s.b s.c v

/-- `GaussianRBM.gibbs`: `v ↦ sample_v(sample_h(v))`. -/
def gaussGibbs (E : ExtF) (s : GRBM) (r : Rng) (t : Nat) (v : Mat) :
    Mat × Nat :=
  let hs := gaussSampleH E s r t v
  gaussSampleV s r hs.2 hs.1

/-- `_reconstruction_error`: mean squared error between `v_pos` and its
deterministic reconstruction `mean_v(mean_h(v_pos))`; no perturbation and no
randomness. -/
def gaussReconError (E : ExtF) (s : GRBM) (v_pos : Mat) : ℚ :=
  let h := gaussMeanH E s v_pos
  let z := gaussMeanV s h
  meanQ (List.zipWith
    (fun row zrow => (List.zipWith (fun x y => (x - y) ^ 2) row zrow).sum)
    v_pos z)

inductive GUpd where
  | uW : Mat → GUpd
  | ub : Vec → GUpd
  | uc : Vec → GUpd
  | uh : Mat → GUpd

def applyGUpd (s : GRBM) : GUpd → GRBM
  | GUpd.uW m => { s with W := m }
  | GUpd.ub v => { s with b := v }
  | GUpd.uc v => { s with c := v }
  | GUpd.uh m => { s with h_samples := m }

def applyGUpds (s : GRBM) (l : List GUpd) : GRBM := l.foldl applyGUpd s

/-- One iteration of the `for _ in range(self.K)` loop of `GaussianRBM._fit`:
`v_neg = mean_v(h_neg)` ("Use mean to reduce instability" — no visible
sampling), then `h_neg = sample_h(v_neg)`. -/
def gaussFitStep (E : ExtF) (s : GRBM) (r : Rng) (p : Option Mat × Mat × Nat) :
    Option Mat × Mat × Nat :=
  let v := gaussMeanV s p.2.1
  let h := gaussSampleH E s r p.2.2 v
  (some v, h.1, h.2)

/-- The `for _ in range(n)` loop of `GaussianRBM._fit` for `n` iterations. -/
def gaussFitChainN (E : ExtF) (s : GRBM) (r : Rng) (t : Nat) (n : Nat) :
    Option Mat × Mat × Nat :=
  (List.range n).foldl (fun acc _ => gaussFitStep E s r acc)
    (none, s.h_samples, t)

def gaussFitChain (E : ExtF) (s : GRBM) (r : Rng) (t : Nat) :
    Option Mat × Mat × Nat :=
  gaussFitChainN E s r t s.K

/-- `GaussianRBM._fit`, analogous to `binFit`. -/
def gaussFit (E : ExtF) (G : TGrad3) (s : GRBM) (r : Rng) (t : Nat)
    (v_pos : Mat) : Option (ℚ × List GUpd × Nat) :=
  match gaussFitChain E s r t with
  | (none, _, _) => none
  | (some v_neg, h_neg, t') =>
    let costFn := fun p : Params3 =>
      meanQ (gaussFreeEnergyP E p.1 p.2.1 p.2.2 v_pos) -
        meanQ (gaussFreeEnergyP E p.1 p.2.1 p.2.2 v_neg)
    let g := G costFn (s.W, s.b, s.c)
    some (gaussReconError E s v_pos,
      [GUpd.uW (subMat s.W (smulMat s.epsilon g.1)),
       GUpd.ub (subVec s.b (smulVec s.epsilon g.2.1)),
       GUpd.uc (subVec s.c (smulVec s.epsilon g.2.2)),
       GUpd.uh h_neg],
      t')

/-- The initialization guard at the top of `GaussianRBM.fit`. -/
def gaussFitInit (ir : Rng) (t : Nat) (s : GRBM) (n_in : Nat) : GRBM × Nat :=
  if ncols s.W = 0 then
    ({ s with
        W := gaussDraws ir t n_in s.n_hiddens (1 / 100)
        c := zerosV s.n_hiddens
        b := zerosV n_in
        h_samples := zerosM s.n_samples s.n_hiddens },
      t + n_in * s.n_hiddens)
  else (s, t)

/-- The minibatch loop of `GaussianRBM.fit` for one epoch. -/
def gaussFitBatches (E : ExtF) (G : TGrad3) (r : Rng) :
    List Mat → GRBM → Nat → Option (GRBM × Nat)
  | [], s, t => some (s, t)
  | v :: rest, s, t =>
    match gaussFit E G s r t v with
    | none => none
    | some lut => gaussFitBatches E G r rest (applyGUpds s lut.2.1) lut.2.2

/-! ## SetRBM (ml.py lines 605-773)

A conditional multi-modal RBM with visibles `x` (a set of rows), a label
vector `y`, parameters `W, U, b, c, d` and a CD-style training function.  The
three-group sampling chain (lines 736-746) feeds the negative samples
`nx_samples, ny_samples` into the cost; here they enter the update
construction (lines 748-757, the part claims quantify over) as explicit
values, and `consider_constant=[nx_samples, ny_samples]` is modelled by the
differentiated function closing over those fixed values. -/

structure SRBM where
  W : Mat
  U : Mat
  b : Vec
  c : Vec
  d : Vec
  learning_rate : ℚ
  K : Nat

/-- Row-vector times matrix (`T.dot(y, U)`). -/
def vecMat (y : Vec) (u : Mat) : Vec :=
  (transposeM u).map (fun col => dotL y col)

/-- Column sums (`.sum(0)`). -/
def colSums (m : Mat) : Vec := (transposeM m).map List.sum

def addVec (a b : Vec) : Vec := List.zipWith (fun x y => x + y) a b

/-- `_softminus`: `x - softplus(x)`. -/
def setSoftminus (E : ExtF) (x : ℚ) : ℚ := x - softplusQ E x

/-- The five SetRBM parameters `(W, U, b, c, d)`. -/
abbrev Params5 := Mat × Mat × Vec × Vec × Vec

abbrev TGrad5 := (Params5 → ℚ) → Params5 → Params5

/-- `SetRBM._free_energy` over an explicit parameter quintuple: bias term
`dot(y, d) + dot(x, c)` (a vector over the rows of `x`), pooled hidden
contribution `softplus(dot(y, U) + log(exp(softminus(dot(x, W) + b)).sum(0))).sum()`,
negated. -/
def setFreeEnergyP (E : ExtF) (p : Params5) (x : Mat) (y : Vec) : Vec :=
  let softmax_x :=
    (colSums (mapMat (fun z => E.ex (setSoftminus E z))
      (addRow (matMul x p.1) p.2.2.1))).map E.lg
  let hidden :=
    ((addVec (vecMat y p.2.1) softmax_x).map (softplusQ E)).sum
  (x.map (fun row => dotL row p.2.2.2.1)).map
    (fun xc => -(dotL y p.2.2.2.2 + xc) - hidden)

def setFreeEnergy (E : ExtF) (s : SRBM) (x : Mat) (y : Vec) : Vec :=
  setFreeEnergyP E (s.W, s.U, s.b, s.c, s.d) x y

/-- The updates dictionary built by `SetRBM.__train` (lines 748-757): cost
`mean(FE(x, y)) - mean(FE(nx, ny))` differentiated with the chain outputs
`nx, ny` held constant, then `param - gparam * learning_rate` for each of the
five parameters. -/
def setTrainUpdates (E : ExtF) (G : TGrad5) (s : SRBM) (x : Mat) (y : Vec)
    (nx : Mat) (ny : Vec) : Params5 :=
  let costFn := fun p : Params5 =>
    meanQ (setFreeEnergyP E p x y) - meanQ (setFreeEnergyP E p nx ny)
  let g := G costFn (s.W, s.U, s.b, s.c, s.d)
  (subMat s.W (smulMat s.learning_rate g.1),
   subMat s.U (smulMat s.learning_rate g.2.1),
   subVec s.b (smulVec s.learning_rate g.2.2.1),
   subVec s.c (smulVec s.learning_rate g.2.2.2.1),
   subVec s.d (smulVec s.learning_rate g.2.2.2.2))

/-! ## Persisted files

`numpy.save`/`numpy.load` on flat files, modelled as an association list from
file names to arrays; a save overwrites, a load of a missing file fails. -/

inductive NpArr where
  | arrM : Mat → NpArr
  | arrV : Vec → NpArr

abbrev FS := List (String × NpArr)

def fsSet (fs : FS) (k : String) (a : NpArr) : FS := (k, a) :: fs

def fsGet (fs : FS) (k : String) : Option NpArr :=
  (fs.find? (fun p => p.1 = k)).map Prod.snd

/-- `SetRBM.save`: the five parameter arrays, each under a file named after
the parameter with an optional tag suffix. -/
def setTagStr (tag : Option String) : String :=
  match tag with
  | none => ""
  | some t => "_" ++ t

/-- The file name `"rbm_%c%s.npy"` for a SetRBM parameter named by one
character, with the optional tag suffix. -/
def setKey (c : Char) (tag : Option String) : String :=
  "rbm_" ++ String.singleton c ++ setTagStr tag ++ ".npy"

def setSave (s : SRBM) (tag : Option String) (fs : FS) : FS :=
  fsSet (fsSet (fsSet (fsSet (fsSet fs
    (setKey 'W' tag) (NpArr.arrM s.W))
    (setKey 'U' tag) (NpArr.arrM s.U))
    (setKey 'b' tag) (NpArr.arrV s.b))
    (setKey 'c' tag) (NpArr.arrV s.c))
    (setKey 'd' tag) (NpArr.arrV s.d)

/-! ## MLP (ml.py lines 776-1003)

Layers hold shared weight variables; the parameter heap is modelled by two
stores (`Wstore`, `bstore`) indexed by identifiers held in the layer records,
so that the clean stack's reuse of the noisy stack's shared variables is
aliasing of store slots, exactly as Theano shared variables alias state.

`NeuralNetworkLayer.__init__` always draws `W_values` from `numpy.random`
(consuming initialization randomness) and uses them only when no `W` is
passed; a `RectifierLayer` with `mask=True` draws its fixed sign mask when
the activation is applied to build the graph, i.e. during construction.  The
clean stack passes `W=...`, `b=...` from the noisy layers but draws its own
fresh masks.  The dropout factor on the pooled last-layer input is a single
scalar Bernoulli draw per call of a compiled noisy function. -/

inductive LKind where
  | kL | kR | kS | kSp | kT | kLi | kSq
deriving DecidableEq

structure BLayer where
  kind : LKind
  n_in : Nat
  n_out : Nat
  Wid : Nat
  bid : Nat
  mask : Option Vec
deriving DecidableEq

structure MLPst where
  n_in : Nat
  hidden_dropout : ℚ
  layers : List BLayer
  clean_layers : List BLayer
  Wstore : List Mat
  bstore : List Vec
deriving DecidableEq

/-- `numpy.sign` (zero at zero). -/
def signQ (x : ℚ) : ℚ := if 0 < x then 1 else if x < 0 then -1 else 0

/-- Draws for `numpy.random.uniform(low, high, (rows, cols))`. -/
def uniformDraws (r : Rng) (t : Nat) (rows cols : Nat) (lo hi : ℚ) : Mat :=
  (List.range rows).map (fun i =>
    (List.range cols).map (fun j => lo + (hi - lo) * r (t + i * cols + j)))

/-- The rectifier sign mask: `sign(uniform(low=-1, high=1, size=(n_out,)))`. -/
def drawMask (r : Rng) (t : Nat) (nOut : Nat) : Vec :=
  (List.range nOut).map (fun j => signQ (-1 + 2 * r (t + j)))

/-- Whether a layer spec gets a rectifier mask: `mask=False` is passed
exactly when the layer type is `'R'` and the spec tuple equals the last spec
(the source compares the tuples `layer == layers[-1]`). -/
def maskOn (sp lastSp : LKind × Nat) : Bool :=
  sp.1 = LKind.kR && sp ≠ lastSp

/-- Build the noisy stack: per layer, draw `W_values`
(`uniform(-sqrt(6/(n_in+n_out)), sqrt(6/(n_in+n_out)))`), allocate fresh
shared variables for `W` and `b = zeros`, and draw a mask for masked
rectifier layers. -/
def buildNoisy (E : ExtF) (ir : Rng) (lastSp : LKind × Nat) :
    List (LKind × Nat) → Nat → Nat → List Mat → List Vec → List BLayer →
      List BLayer × List Mat × List Vec × Nat
  | [], _, t, ws, bs, acc => (acc.reverse, ws, bs, t)
  | sp :: rest, curIn, t, ws, bs, acc =>
    let nOut := sp.2
    let sc := E.sq (6 / ((curIn : ℚ) + (nOut : ℚ)))
    let wv := uniformDraws ir t curIn nOut (-sc) sc
    let t1 := t + curIn * nOut
    let mk := if maskOn sp lastSp then some (drawMask ir t1 nOut) else none
    let t2 := if maskOn sp lastSp then t1 + nOut else t1
    let lay : BLayer := ⟨sp.1, curIn, nOut, ws.length, bs.length, mk⟩
    buildNoisy E ir lastSp rest nOut t2 (ws ++ [wv]) (bs ++ [zerosV nOut])
      (lay :: acc)

/-- Build the clean stack: `W_values` are still drawn (and discarded, since
`W` and `b` are passed in from the noisy layer `i`), masked rectifier layers
draw their own fresh masks. -/
def buildClean (E : ExtF) (ir : Rng) (lastSp : LKind × Nat) :
    List ((LKind × Nat) × BLayer) → Nat → Nat → List BLayer →
      List BLayer × Nat
  | [], _, t, acc => (acc.reverse, t)
  | (sp, bl) :: rest, curIn, t, acc =>
    let nOut := sp.2
    let t1 := t + curIn * nOut
    let mk := if maskOn sp lastSp then some (drawMask ir t1 nOut) else none
    let t2 := if maskOn sp lastSp then t1 + nOut else t1
    let lay : BLayer := ⟨sp.1, curIn, nOut, bl.Wid, bl.bid, mk⟩
    buildClean E ir lastSp rest nOut t2 (lay :: acc)

def specsLast (specs : List (LKind × Nat)) : LKind × Nat :=
  specs.getLastD (LKind.kLi, 0)

/-- `MLP.__init__`: build the noisy stack, then the weight-sharing clean
stack, threading the construction-time random stream through both. -/
def mlpInit (E : ExtF) (ir : Rng) (t0 : Nat) (nIn : Nat)
    (specs : List (LKind × Nat)) (hd : ℚ) : MLPst :=
  let nb := buildNoisy E ir (specsLast specs) specs nIn t0 [] [] []
  let cb := buildClean E ir (specsLast specs) (specs.zip nb.1) nIn nb.2.2.2 []
  ⟨nIn, hd, nb.1, cb.1, nb.2.1, nb.2.2.1⟩

/-- Activation of one layer kind; a masked rectifier multiplies by the fixed
sign mask elementwise, softmax is rowwise `exp(z) / exp(z).sum()`. -/
def applyAct (E : ExtF) (k : LKind) (mask : Option Vec) (z : Mat) : Mat :=
  match k with
  | LKind.kL => mapMat E.sig z
  | LKind.kR =>
    match mask with
    | some mk => z.map (fun row => List.zipWith (fun mi zi => mi * max zi 0) mk row)
    | none => mapMat (fun x => max x 0) z
  | LKind.kS => z.map (fun row =>
      let e := row.map E.ex
      e.map (fun xi => xi / e.sum))
  | LKind.kSp => mapMat (softplusQ E) z
  | LKind.kT => mapMat E.th z
  | LKind.kLi => z
  | LKind.kSq => mapMat (fun x => x ^ 2) z

/-- `NeuralNetworkLayer.output`: `activation(dot(x, W) + b)`, the shared
variables read from the stores. -/
def layerOut (E : ExtF) (ws : List Mat) (bs : List Vec) (l : BLayer)
    (x : Mat) : Mat :=
  applyAct E l.kind l.mask (addRow (matMul x (ws.getD l.Wid [])) (bs.getD l.bid []))

/-- Chain the layers left to right with no last-layer special casing (the
hidden part of the stack). -/
def evalChain (E : ExtF) (ws : List Mat) (bs : List Vec) :
    List BLayer → Mat → Mat
  | [], x => x
  | l :: rest, x => evalChain E ws bs rest (layerOut E ws bs l x)

/-- Columnwise maximum (`T.max(input, axis=0)`), the set-pooling step. -/
def colMax (m : Mat) : Vec :=
  (transposeM m).map (fun col =>
    match col with
    | [] => 0
    | h :: tl => tl.foldl max h)

/-- Evaluate a full stack: the input of the last layer is the columnwise max
of the previous output (a single pooled row), multiplied in the noisy stack
by a scalar Bernoulli dropout draw divided by `hidden_dropout`. -/
def evalStack (E : ExtF) (ws : List Mat) (bs : List Vec) (noisy : Bool)
    (hd : ℚ) (r : Rng) (t : Nat) (layers : List BLayer) (x : Mat) : Mat :=
  match layers.getLast? with
  | none => x
  | some l =>
    let pooled := [colMax (evalChain E ws bs layers.dropLast x)]
    let inp := if noisy
      then smulMat ((if r t < hd then 1 else 0) / hd) pooled
      else pooled
    layerOut E ws bs l inp

/-- Index of the first maximal entry of a row (`T.argmax`). -/
def argmaxIdx (v : Vec) : Nat :=
  (v.enum.foldl (fun best p => if best.2 < p.2 then p else best)
    (0, v.headD 0)).1

/-- `MLP._output`: `argmax(clean_layers[-1].output, axis=1)`, evaluated on
the clean stack. -/
def mlpOutput (E : ExtF) (m : MLPst) (r : Rng) (t : Nat) (x : Mat) :
    List Nat :=
  (evalStack E m.Wstore m.bstore false m.hidden_dropout r t m.clean_layers x).map
    argmaxIdx

/-- `MLP.transform`: `T.max(clean_layers[-2].output, axis=0)`. -/
def mlpTransform (E : ExtF) (m : MLPst) (x : Mat) : Vec :=
  colMax (evalChain E m.Wstore m.bstore m.clean_layers.dropLast x)

/-- Noisy forward pass used by the training loss. -/
def mlpNoisyOut (E : ExtF) (m : MLPst) (r : Rng) (t : Nat) (x : Mat) : Mat :=
  evalStack E m.Wstore m.bstore true m.hidden_dropout r t m.layers x

/-- One plain (momentum-free) `NeuralNetworkTrainer` update applied to the
shared stores: for each noisy layer, `W := W - learning_rate * gW` and
`b := b - learning_rate * gb`, where the gradients come from the abstract
engine. -/
def trainerStep (lr : ℚ) (m : MLPst) (gws : List Mat) (gbs : List Vec) :
    MLPst :=
  let ws := (m.layers.zip gws).foldl
    (fun acc lg => acc.set lg.1.Wid
      (subMat (acc.getD lg.1.Wid []) (smulMat lr lg.2))) m.Wstore
  let bs := (m.layers.zip gbs).foldl
    (fun acc lg => acc.set lg.1.bid
      (subVec (acc.getD lg.1.bid []) (smulVec lr lg.2))) m.bstore
  { m with Wstore := ws, bstore := bs }

/-- File name for the weight matrix of layer `i` (`"W_%d.npy" % i`). -/
def wkey (i : Nat) : String := "W_" ++ toString i ++ ".npy"

/-- File name for the bias vector of layer `i` (`"b_%d.npy" % i`). -/
def bkey (i : Nat) : String := "b_" ++ toString i ++ ".npy"

/-- One iteration of the `MLP.save` loop: write the layer's two parameter
arrays. -/
def saveStep (m : MLPst) (acc : FS) (il : Nat × BLayer) : FS :=
  fsSet (fsSet acc (wkey il.1) (NpArr.arrM (m.Wstore.getD il.2.Wid [])))
    (bkey il.1) (NpArr.arrV (m.bstore.getD il.2.bid []))

/-- `MLP.save`: each layer's parameter arrays under files named after the
parameter and the layer index. -/
def mlpSave (m : MLPst) (fs : FS) : FS :=
  m.layers.enum.foldl (saveStep m) fs

def mlpLoadAux (fs : FS) :
    List (Nat × BLayer) → List Mat → List Vec → Option (List Mat × List Vec)
  | [], ws, bs => some (ws, bs)
  | il :: rest, ws, bs =>
    match fsGet fs (wkey il.1), fsGet fs (bkey il.1) with
    | some (NpArr.arrM w), some (NpArr.arrV bv) =>
        mlpLoadAux fs rest (ws.set il.2.Wid w) (bs.set il.2.bid bv)
    | _, _ => none

/-- `MLP.load`: set each layer's shared variables from the files; fails when
a file is missing (as `numpy.load` would). -/
def mlpLoad (fs : FS) (m : MLPst) : Option MLPst :=
  (mlpLoadAux fs m.layers.enum m.Wstore m.bstore).map
    (fun p => { m with Wstore := p.1, bstore := p.2 })

/-! ## RNN (ml.py lines 1006-1060) -/

structure RNNst where
  h0 : Vec
  W : Mat
  U : Mat
  V : Mat
  b : Vec
  c : Vec
  learning_rate : ℚ

/-- The RNN parameters `(W, U, V, b, c)`. -/
abbrev RParams := Mat × Mat × Mat × Vec × Vec

abbrev TGradR := (RParams → ℚ) → RParams → RParams

/-- One `theano.scan` step: `h_t = tanh(dot(x_t, W) + dot(h_tm1, U) + b)`,
`y_t = sigmoid(dot(h_t, V) + c)`. -/
def rnnStepP (E : ExtF) (p : RParams) (x_t h_tm1 : Vec) : Vec × Vec :=
  let h_t := (addVec (addVec (vecMat x_t p.1) (vecMat h_tm1 p.2.1)) p.2.2.2.1).map E.th
  let y_t := (addVec (vecMat h_t p.2.2.1) p.2.2.2.2).map E.sig
  (h_t, y_t)

/-- The unrolled recurrence over the rows of the input sequence. -/
def rnnScanP (E : ExtF) (p : RParams) : List Vec → Vec → List (Vec × Vec)
  | [], _ => []
  | x :: rest, h =>
    let s := rnnStepP E p x h
    s :: rnnScanP E p rest s.1

/-- The per-sequence cost
`-(y*log(output) + (1-y)*log(1-output)).sum(1).mean()`. -/
def rnnCostP (E : ExtF) (p : RParams) (h0 : Vec) (x y : Mat) : ℚ :=
  let outs := (rnnScanP E p x h0).map Prod.snd;
  -(meanQ (List.zipWith
    (fun yr or => (List.zipWith
      (fun yi oi => yi * E.lg oi + (1 - yi) * E.lg (1 - oi)) yr or).sum)
    y outs))

/-- Elementwise gradient clipping
`T.maximum(-15, T.minimum(gparam, 15.))`. -/
def clip15 (g : ℚ) : ℚ := max (-15) (min g 15)

def clipM (m : Mat) : Mat := mapMat clip15 m

def clipV (v : Vec) : Vec := v.map clip15

/-- One call of the compiled `RNN.train` function: gradients of the unrolled
cost from the abstract engine, clipped elementwise, then a fixed-rate step
`param := param - learning_rate * clipped`. -/
def rnnTrain (E : ExtF) (G : TGradR) (s : RNNst) (x y : Mat) : RNNst :=
  let costFn := fun p : RParams => rnnCostP E p s.h0 x y
  let g := G costFn (s.W, s.U, s.V, s.b, s.c)
  { s with
      W := subMat s.W (smulMat s.learning_rate (clipM g.1))
      U := subMat s.U (smulMat s.learning_rate (clipM g.2.1))
      V := subMat s.V (smulMat s.learning_rate (clipM g.2.2.1))
      b := subVec s.b (smulVec s.learning_rate (clipV g.2.2.2.1))
      c := subVec s.c (smulVec s.learning_rate (clipV g.2.2.2.2)) }

/-! ## Specification-side definitions

Definitions written from the spec's and claims' wording, to be compared with
the definitions translated from the source. -/

/-- One Gibbs step as the spec describes it for the binary RBM: draw the
visibles from the hiddens, then the hiddens from those visibles. -/
def binHVStep (E : ExtF) (s : BRBM) (r : Rng) (p : Mat × Nat) :
    Mat × Mat × Nat :=
  let v := binSampleV E s r p.2 p.1
  let h := binSampleH E s r v.2 v.1
  (v.1, h.1, h.2)

/-- The state of the spec-side binary chain after `k + 1` Gibbs steps started
from the fantasy particles. -/
def binChainSpec (E : ExtF) (s : BRBM) (r : Rng) (t : Nat) :
    Nat → Mat × Mat × Nat
  | 0 => binHVStep E s r (s.h_samples, t)
  | n + 1 =>
    let p := binChainSpec E s r t n
    binHVStep E s r (p.2.1, p.2.2)

/-- One Gaussian chain step as the code performs it: visibles set to their
conditional mean, then hiddens sampled. -/
def gaussMVStep (E : ExtF) (s : GRBM) (r : Rng) (p : Mat × Nat) :
    Mat × Mat × Nat :=
  let v := gaussMeanV s p.1
  let h := gaussSampleH E s r p.2 v
  (v, h.1, h.2)

def gaussChainSpec (E : ExtF) (s : GRBM) (r : Rng) (t : Nat) :
    Nat → Mat × Mat × Nat
  | 0 => gaussMVStep E s r (s.h_samples, t)
  | n + 1 =>
    let p := gaussChainSpec E s r t n
    gaussMVStep E s r (p.2.1, p.2.2)

/-- One Gaussian chain step as the claim describes it: visibles drawn by
`sample_v`, then hiddens sampled. -/
def gaussHVStepClaim (E : ExtF) (s : GRBM) (r : Rng) (p : Mat × Nat) :
    Mat × Mat × Nat :=
  let v := gaussSampleV s r p.2 p.1
  let h := gaussSampleH E s r v.2 v.1
  (v.1, h.1, h.2)

def gaussChainClaim (E : ExtF) (s : GRBM) (r : Rng) (t : Nat) :
    Nat → Mat × Mat × Nat
  | 0 => gaussHVStepClaim E s r (s.h_samples, t)
  | n + 1 =>
    let p := gaussChainClaim E s r t n
    gaussHVStepClaim E s r (p.2.1, p.2.2)

/-- The `bit_i` assignment contained in a binary updates dictionary. -/
def bitOf : List BUpd → Option Nat
  | [] => none
  | BUpd.ubit n :: _ => some n
  | _ :: rest => bitOf rest

/-- Rectangular shape predicate for embedded arrays. -/
def Rect (m : Mat) (rows cols : Nat) : Prop :=
  m.length = rows ∧ ∀ row ∈ m, row.length = cols

instance (m : Mat) (rows cols : Nat) : Decidable (Rect m rows cols) := by
  unfold Rect; infer_instance

/-- Well-formed binary RBM state over `nv` visible units. -/
def BWF (nv : Nat) (s : BRBM) : Prop :=
  Rect s.W nv s.n_hiddens ∧ s.b.length = nv ∧ s.c.length = s.n_hiddens ∧
    Rect s.h_samples s.n_samples s.n_hiddens ∧ 0 < s.n_hiddens ∧ 0 < nv

instance (nv : Nat) (s : BRBM) : Decidable (BWF nv s) := by
  unfold BWF; infer_instance

/-- Well-formed Gaussian RBM state over `nv` visible units. -/
def GWF (nv : Nat) (s : GRBM) : Prop :=
  Rect s.W nv s.n_hiddens ∧ s.b.length = nv ∧ s.c.length = s.n_hiddens ∧
    Rect s.h_samples s.n_samples s.n_hiddens ∧ 0 < s.n_hiddens ∧ 0 < nv

instance (nv : Nat) (s : GRBM) : Decidable (GWF nv s) := by
  unfold GWF; infer_instance

/-- The query and sampling methods of a binary RBM, as calls of their
compiled functions: these methods pass `updates=None` to `theano.function`,
so a call returns its output and advances only the sampling stream — the
model state comes back untouched. -/
inductive RBMOp where
  | opMeanH : Mat → RBMOp
  | opSampleH : Mat → RBMOp
  | opMeanV : Mat → RBMOp
  | opSampleV : Mat → RBMOp
  | opGibbs : Mat → RBMOp
  | opFreeEnergy : Mat → RBMOp

def binQuery (E : ExtF) (s : BRBM) (r : Rng) (t : Nat) :
    RBMOp → (Mat ⊕ Vec) × BRBM × Nat
  | RBMOp.opMeanH v => (Sum.inl (binMeanH E s v), s, t)
  | RBMOp.opSampleH v =>
    (Sum.inl (binSampleH E s r t v).1, s, (binSampleH E s r t v).2)
  | RBMOp.opMeanV h => (Sum.inl (binMeanV E s h), s, t)
  | RBMOp.opSampleV h =>
    (Sum.inl (binSampleV E s r t h).1, s, (binSampleV E s r t h).2)
  | RBMOp.opGibbs v =>
    (Sum.inl (binGibbs E s r t v).1, s, (binGibbs E s r t v).2)
  | RBMOp.opFreeEnergy v => (Sum.inr (binFreeEnergy E s v), s, t)

def gaussQuery (E : ExtF) (s : GRBM) (r : Rng) (t : Nat) :
    RBMOp → (Mat ⊕ Vec) × GRBM × Nat
  | RBMOp.opMeanH v => (Sum.inl (gaussMeanH E s v), s, t)
  | RBMOp.opSampleH v =>
    (Sum.inl (gaussSampleH E s r t v).1, s, (gaussSampleH E s r t v).2)
  | RBMOp.opMeanV h => (Sum.inl (gaussMeanV s h), s, t)
  | RBMOp.opSampleV h =>
    (Sum.inl (gaussSampleV s r t h).1, s, (gaussSampleV s r t h).2)
  | RBMOp.opGibbs v =>
    (Sum.inl (gaussGibbs E s r t v).1, s, (gaussGibbs E s r t v).2)
  | RBMOp.opFreeEnergy v => (Sum.inr (gaussFreeEnergy E s v), s, t)

/-- The clean stack as the claim describes it: chain the clean layers, pool
the set dimension by columnwise max before the final layer, apply no
dropout, and feed the pooled row to the final layer. -/
def cleanStackSpec (E : ExtF) (m : MLPst) (x : Mat) : Mat :=
  match m.clean_layers.getLast? with
  | none => x
  | some l =>
    layerOut E m.Wstore m.bstore l
      [colMax (evalChain E m.Wstore m.bstore m.clean_layers.dropLast x)]

/-- Shape data of a layer, ignoring the mask and shared-variable identity. -/
def layerShape (l : BLayer) : LKind × Nat × Nat := (l.kind, l.n_in, l.n_out)

/-- Default layer used by out-of-range index accesses in statements. -/
def dummyL : BLayer := ⟨LKind.kLi, 0, 0, 0, 0, none⟩

/-- Two MLPs with the same declared layer structure. -/
def sameStructure (m₁ m₂ : MLPst) : Prop :=
  m₁.n_in = m₂.n_in ∧ m₁.hidden_dropout = m₂.hidden_dropout ∧
    m₁.layers.map layerShape = m₂.layers.map layerShape ∧
    m₁.clean_layers.map layerShape = m₂.clean_layers.map layerShape

instance (m₁ m₂ : MLPst) : Decidable (sameStructure m₁ m₂) := by
  unfold sameStructure; infer_instance

/-- Claim C6, as stated: saving any MLP and loading the files into any model
of the same layer structure reproduces the original inference outputs. -/
def C6Claim : Prop :=
  ∀ (E : ExtF) (m₁ m₂ m₂' : MLPst) (fs : FS) (x : Mat) (r r' : Rng)
    (t t' : Nat),
    sameStructure m₁ m₂ →
    mlpLoad (mlpSave m₁ fs) m₂ = some m₂' →
    mlpOutput E m₂' r t x = mlpOutput E m₁ r' t' x

/-- Claim C4's "randomly chosen input dimension" for the binary RBM: the
perturbed bit index emitted by a `_fit` call is sensitive to the random
stream. -/
def C4BitRandomClaim : Prop :=
  ∃ (E : ExtF) (G : TGrad3) (s : BRBM) (r₁ r₂ : Rng) (t : Nat) (v : Mat)
    (o₁ o₂ : ℚ × List BUpd × Nat),
    binFit E G s r₁ t v = some o₁ ∧ binFit E G s r₂ t v = some o₂ ∧
      bitOf o₁.2.1 ≠ bitOf o₂.2.1

/-- Claim C4's random perturbation for the Gaussian RBM: the reported
reconstruction-error diagnostic is sensitive to the random stream. -/
def C4GaussRandomClaim : Prop :=
  ∃ (E : ExtF) (G : TGrad3) (s : GRBM) (r₁ r₂ : Rng) (t : Nat) (v : Mat)
    (o₁ o₂ : ℚ × List GUpd × Nat),
    gaussFit E G s r₁ t v = some o₁ ∧ gaussFit E G s r₂ t v = some o₂ ∧
      o₁.1 ≠ o₂.1

/-! ## Concrete instances used by witnesses and counterexamples -/

def idQ : ℚ → ℚ := fun x => x

/-- A concrete instantiation of the abstract external kernels. -/
def E0 : ExtF := ⟨idQ, idQ, idQ, idQ, idQ⟩

/-- External kernels for the MLP counterexample: `exp` shifted to keep
softmax denominators nonzero, a trivial square root for the init scale. -/
def EA : ExtF := ⟨idQ, idQ, fun z => z + 10, idQ, fun _ => 1⟩

def rHalf : Rng := fun _ => 1 / 2

def rZero : Rng := fun _ => 0

/-- A tiny concrete Gaussian RBM: one visible, one hidden, one particle,
`K = 1`. -/
def cexG : GRBM := ⟨[[2]], [3], [0], [[1]], 1, 1 / 10, 1, 1⟩

/-- A tiny concrete binary RBM (fields `W b c h_samples bit_i K epsilon
n_samples n_hiddens`). -/
def cexB : BRBM := ⟨[[2]], [3], [0], [[1]], 0, 1, 1 / 10, 1, 1⟩

/-- A tiny concrete SetRBM (fields `W U b c d learning_rate K`). -/
def cexS : SRBM := ⟨[[1]], [[1]], [0], [0], [0], 1 / 10, 1⟩

/-- A tiny concrete RNN (fields `h0 W U V b c learning_rate`). -/
def cexR : RNNst := ⟨[0], [[1]], [[1]], [[1]], [0], [0], 1 / 10⟩

/-- A trivial gradient oracle used to instantiate theorems at a point. -/
def tg3 : TGrad3 := fun _ p => p

def tg5 : TGrad5 := fun _ p => p

def tgR : TGradR := fun _ p => p

/-- Construction stream for the first MLP of the C6 counterexample. -/
def irA : Rng := fun n =>
  ([1, 1, 1, 1, 1/2, 1, 1, 1/2, 1, 1, 1, 1] : List ℚ).getD n 1

/-- Construction stream for the second MLP: identical except for the stream
value feeding the second entry of the clean rectifier mask. -/
def irB : Rng := fun n => if n = 11 then 0 else irA n

def mlpSpecsC : List (LKind × Nat) := [(LKind.kR, 2), (LKind.kS, 2)]

def mlpA : MLPst := mlpInit EA irA 0 1 mlpSpecsC (1 / 2)

def mlpB : MLPst := mlpInit EA irB 0 1 mlpSpecsC (1 / 2)

/-- The second MLP after loading the first one's saved parameters. -/
def mlpB' : MLPst := { mlpB with Wstore := mlpA.Wstore, bstore := mlpA.bstore }

/-- The state claim C2 predicts after one binary `_fit` step: each parameter
`p` replaced by `p - epsilon * grad_p` where the gradients are the engine's
gradient of `mean(FE(v_pos)) - mean(FE(v_neg))` at the current parameters
with the chain output `v_neg` held fixed, the fantasy particles replaced by
the final hidden sample of the chain (and the pseudo-likelihood counter
advanced). -/
def binFitSpecState (E : ExtF) (G : TGrad3) (s : BRBM) (r : Rng) (t : Nat)
    (v_pos : Mat) : BRBM :=
  let q := binChainSpec E s r t (s.K - 1)
  let g := G (fun p => meanQ (binFreeEnergyP E p.1 p.2.1 p.2.2 v_pos) -
      meanQ (binFreeEnergyP E p.1 p.2.1 p.2.2 q.1)) (s.W, s.b, s.c)
  { s with
      W := subMat s.W (smulMat s.epsilon g.1)
      b := subVec s.b (smulVec s.epsilon g.2.1)
      c := subVec s.c (smulVec s.epsilon g.2.2)
      h_samples := q.2.1
      bit_i := (s.bit_i + 1) % ncols v_pos }

/-- The state claim C2 predicts after one Gaussian `_fit` step. -/
def gaussFitSpecState (E : ExtF) (G : TGrad3) (s : GRBM) (r : Rng) (t : Nat)
    (v_pos : Mat) : GRBM :=
  let q := gaussChainSpec E s r t (s.K - 1)
  let g := G (fun p => meanQ (gaussFreeEnergyP E p.1 p.2.1 p.2.2 v_pos) -
      meanQ (gaussFreeEnergyP E p.1 p.2.1 p.2.2 q.1)) (s.W, s.b, s.c)
  { s with
      W := subMat s.W (smulMat s.epsilon g.1)
      b := subVec s.b (smulVec s.epsilon g.2.1)
      c := subVec s.c (smulVec s.epsilon g.2.2)
      h_samples := q.2.1 }

/-- The parameters claim C2 predicts after one SetRBM training step: each of
the five parameters stepped against the engine's gradient of the
free-energy-difference cost with the chain outputs held fixed. -/
def setUpdatesSpec (E : ExtF) (G : TGrad5) (s : SRBM) (x : Mat) (y : Vec)
    (nx : Mat) (ny : Vec) : Params5 :=
  let g := G (fun p => meanQ (setFreeEnergyP E p x y) -
      meanQ (setFreeEnergyP E p nx ny)) (s.W, s.U, s.b, s.c, s.d)
  (subMat s.W (smulMat s.learning_rate g.1),
   subMat s.U (smulMat s.learning_rate g.2.1),
   subVec s.b (smulVec s.learning_rate g.2.2.1),
   subVec s.c (smulVec s.learning_rate g.2.2.2.1),
   subVec s.d (smulVec s.learning_rate g.2.2.2.2))

/-! ## Theorems -/

theorem symbolicCalls_cached {σ α β : Type} (method : σ → α → β × σ)
    (calls : List (CallArg α)) (store : σ) (k : Nat) :
    symbolicCalls method calls store ⟨some method, k⟩ =
      ((specRun method calls store).1, (specRun method calls store).2,
        ⟨some method, k⟩) := by
  induction calls generalizing store with
  | nil => rfl
  | cons a rest ih =>
    cases a with
    | symb => simp [symbolicCalls, symbolicCall, specRun, ih]
    | conc x => simp [symbolicCalls, symbolicCall, specRun, ih]

theorem symbolicCalls_fresh {σ α β : Type} (method : σ → α → β × σ)
    (calls : List (CallArg α)) (store : σ) (k : Nat) :
    symbolicCalls method calls store ⟨none, k⟩ =
      ((specRun method calls store).1, (specRun method calls store).2,
        ⟨if hasConc calls then some method else none,
          if hasConc calls then k + 1 else k⟩) := by
  induction calls generalizing store with
  | nil => simp [symbolicCalls, specRun, hasConc]
  | cons a rest ih =>
    cases a with
    | symb => simp [symbolicCalls, symbolicCall, specRun, hasConc, ih]
    | conc x =>
      simp [symbolicCalls, symbolicCall, specRun, hasConc,
        symbolicCalls_cached]

/-- C3: starting from an empty cache, a sequence of invocations of a
`symbolic`-wrapped method produces exactly the results of running the
symbolic definition on the current shared store and the concrete inputs
(symbolic invocations produce no compiled result and leave the store
unchanged); the method is compiled exactly once when some concrete
invocation occurs and never otherwise, and afterwards the instance attribute
caches precisely the compiled method, which every later concrete invocation
reuses. -/
theorem C3_symbolic_compile_once {σ α β : Type} (method : σ → α → β × σ)
    (calls : List (CallArg α)) (store : σ) :
    symbolicCalls method calls store ⟨none, 0⟩ =
      ((specRun method calls store).1, (specRun method calls store).2,
        ⟨if hasConc calls then some method else none,
          if hasConc calls then 1 else 0⟩) := by
  simpa using symbolicCalls_fresh method calls store 0

theorem evalStack_clean_rng (E : ExtF) (ws : List Mat) (bs : List Vec)
    (hd : ℚ) (r₁ r₂ : Rng) (t₁ t₂ : Nat) (layers : List BLayer) (x : Mat) :
    evalStack E ws bs false hd r₁ t₁ layers x =
      evalStack E ws bs false hd r₂ t₂ layers x := by
  unfold evalStack
  cases layers.getLast? <;> simp

theorem mlpOutput_rng (E : ExtF) (m : MLPst) (r₁ r₂ : Rng) (t₁ t₂ : Nat)
    (x : Mat) : mlpOutput E m r₁ t₁ x = mlpOutput E m r₂ t₂ x := by
  unfold mlpOutput
  rw [evalStack_clean_rng E m.Wstore m.bstore m.hidden_dropout r₁ r₂ t₁ t₂]

/-- C7: the dropout-free clean stack consumes no call-time randomness: a
compiled clean function returns identical results under any two states of
the runtime random stream, and in particular `MLP._output` is deterministic
for fixed weights (rectifier sign masks are data fixed in the layers at
construction). -/
theorem C7_clean_inference_deterministic (E : ExtF) (m : MLPst) (x : Mat)
    (r₁ r₂ : Rng) (t₁ t₂ : Nat) :
    (∀ (ws : List Mat) (bs : List Vec) (hd : ℚ) (layers : List BLayer),
      evalStack E ws bs false hd r₁ t₁ layers x =
        evalStack E ws bs false hd r₂ t₂ layers x) ∧
      mlpOutput E m r₁ t₁ x = mlpOutput E m r₂ t₂ x :=
  ⟨fun ws bs hd layers => evalStack_clean_rng E ws bs hd r₁ r₂ t₁ t₂ layers x,
    mlpOutput_rng E m r₁ r₂ t₁ t₂ x⟩

theorem binFitChainN_succ (E : ExtF) (s : BRBM) (r : Rng) (t n : Nat) :
    binFitChainN E s r t (n + 1) =
      binFitStep E s r (binFitChainN E s r t n) := by
  simp [binFitChainN, List.range_succ]

theorem binFitChainN_spec (E : ExtF) (s : BRBM) (r : Rng) (t : Nat) :
    ∀ n, binFitChainN E s r t (n + 1) =
      (some (binChainSpec E s r t n).1, (binChainSpec E s r t n).2.1,
        (binChainSpec E s r t n).2.2)
  | 0 => by
    rw [binFitChainN_succ]
    simp [binFitChainN, binChainSpec, binFitStep, binHVStep]
  | n + 1 => by
    rw [binFitChainN_succ, binFitChainN_spec E s r t n]
    simp [binChainSpec, binFitStep, binHVStep]

theorem gaussFitChainN_succ (E : ExtF) (s : GRBM) (r : Rng) (t n : Nat) :
    gaussFitChainN E s r t (n + 1) =
      gaussFitStep E s r (gaussFitChainN E s r t n) := by
  simp [gaussFitChainN, List.range_succ]

theorem gaussFitChainN_spec (E : ExtF) (s : GRBM) (r : Rng) (t : Nat) :
    ∀ n, gaussFitChainN E s r t (n + 1) =
      (some (gaussChainSpec E s r t n).1, (gaussChainSpec E s r t n).2.1,
        (gaussChainSpec E s r t n).2.2)
  | 0 => by
    rw [gaussFitChainN_succ]
    simp [gaussFitChainN, gaussChainSpec, gaussFitStep, gaussMVStep]
  | n + 1 => by
    rw [gaussFitChainN_succ, gaussFitChainN_spec E s r t n]
    simp [gaussChainSpec, gaussFitStep, gaussMVStep]

/-- C1 (amended): with `K ≥ 1`, the negative sample of `_fit` is produced by
exactly `K` chain steps started from the persistent fantasy particles
`h_samples`; in the binary RBM each step draws the visibles by `sample_v`
and then the hiddens by `sample_h`, while in the Gaussian RBM each step sets
the visibles to their conditional mean `mean_v` (no visible sampling) before
sampling the hiddens. -/
theorem C1_negative_chain (E : ExtF) (sB : BRBM) (sG : GRBM) (r : Rng)
    (t : Nat) (hB : 1 ≤ sB.K) (hG : 1 ≤ sG.K) :
    binFitChain E sB r t =
      (some (binChainSpec E sB r t (sB.K - 1)).1,
        (binChainSpec E sB r t (sB.K - 1)).2.1,
        (binChainSpec E sB r t (sB.K - 1)).2.2) ∧
    gaussFitChain E sG r t =
      (some (gaussChainSpec E sG r t (sG.K - 1)).1,
        (gaussChainSpec E sG r t (sG.K - 1)).2.1,
        (gaussChainSpec E sG r t (sG.K - 1)).2.2) := by
  constructor
  · obtain ⟨n, hn⟩ := Nat.exists_eq_add_of_le hB
    have hk : sB.K = n + 1 := by omega
    rw [binFitChain, hk]
    simpa using binFitChainN_spec E sB r t n
  · obtain ⟨n, hn⟩ := Nat.exists_eq_add_of_le hG
    have hk : sG.K = n + 1 := by omega
    rw [gaussFitChain, hk]
    simpa using gaussFitChainN_spec E sG r t n

theorem C1_negative_chain_witness :
    binFitChain E0 cexB rHalf 0 =
      (some (binChainSpec E0 cexB rHalf 0 (cexB.K - 1)).1,
        (binChainSpec E0 cexB rHalf 0 (cexB.K - 1)).2.1,
        (binChainSpec E0 cexB rHalf 0 (cexB.K - 1)).2.2) ∧
    gaussFitChain E0 cexG rHalf 0 =
      (some (gaussChainSpec E0 cexG rHalf 0 (cexG.K - 1)).1,
        (gaussChainSpec E0 cexG rHalf 0 (cexG.K - 1)).2.1,
        (gaussChainSpec E0 cexG rHalf 0 (cexG.K - 1)).2.2) :=
  C1_negative_chain E0 cexB cexG rHalf 0 (by decide) (by decide)

/-- C2: applying the updates dictionary of one `_fit` call replaces each
parameter `p` by `p - epsilon * grad_p`, where the gradients are the
engine's gradient of `mean(free_energy(v_pos)) - mean(free_energy(v_neg))`
at the current parameters with the chain output `v_neg` entering the
differentiated function as a fixed value (`consider_constant`), and replaces
the fantasy particles by the final hidden sample of the chain; the SetRBM
update dictionary steps its five parameters by the same rule. -/
theorem C2_gradient_updates (E : ExtF) (G G₂ : TGrad3) (G₅ : TGrad5)
    (sB : BRBM) (sG : GRBM) (sS : SRBM) (r r₂ : Rng) (t t₂ : Nat)
    (v_pos w_pos x nx : Mat) (y ny : Vec)
    (hKB : 1 ≤ sB.K) (hKG : 1 ≤ sG.K) :
    (binFit E G sB r t v_pos).map (fun o => applyBUpds sB o.2.1) =
        some (binFitSpecState E G sB r t v_pos) ∧
      (gaussFit E G₂ sG r₂ t₂ w_pos).map (fun o => applyGUpds sG o.2.1) =
        some (gaussFitSpecState E G₂ sG r₂ t₂ w_pos) ∧
      setTrainUpdates E G₅ sS x y nx ny = setUpdatesSpec E G₅ sS x y nx ny := by
  refine ⟨?_, ?_, rfl⟩
  · obtain ⟨n, hn⟩ := Nat.exists_eq_add_of_le hKB
    have hk : sB.K = n + 1 := by omega
    have hch : binFitChain E sB r t =
        (some (binChainSpec E sB r t n).1, (binChainSpec E sB r t n).2.1,
          (binChainSpec E sB r t n).2.2) := by
      rw [binFitChain, hk]; exact binFitChainN_spec E sB r t n
    simp [binFit, hch, binFitSpecState, hk, binPseudoLik,
      applyBUpds, applyBUpd]
  · obtain ⟨n, hn⟩ := Nat.exists_eq_add_of_le hKG
    have hk : sG.K = n + 1 := by omega
    have hch : gaussFitChain E sG r₂ t₂ =
        (some (gaussChainSpec E sG r₂ t₂ n).1,
          (gaussChainSpec E sG r₂ t₂ n).2.1,
          (gaussChainSpec E sG r₂ t₂ n).2.2) := by
      rw [gaussFitChain, hk]; exact gaussFitChainN_spec E sG r₂ t₂ n
    simp [gaussFit, hch, gaussFitSpecState, hk, applyGUpds, applyGUpd]

theorem C2_gradient_updates_witness :
    (binFit E0 tg3 cexB rHalf 0 [[1]]).map (fun o => applyBUpds cexB o.2.1) =
        some (binFitSpecState E0 tg3 cexB rHalf 0 [[1]]) ∧
      (gaussFit E0 tg3 cexG rHalf 0 [[1]]).map
          (fun o => applyGUpds cexG o.2.1) =
        some (gaussFitSpecState E0 tg3 cexG rHalf 0 [[1]]) ∧
      setTrainUpdates E0 tg5 cexS [[1]] [1] [[0]] [1] =
        setUpdatesSpec E0 tg5 cexS [[1]] [1] [[0]] [1] :=
  C2_gradient_updates E0 tg3 tg3 tg5 cexB cexG cexS rHalf rHalf 0 0
    [[1]] [[1]] [[1]] [[0]] [1] [1] (by decide) (by decide)

theorem binFit_bitOf (E : ExtF) (G : TGrad3) (s : BRBM) (r : Rng) (t : Nat)
    (v : Mat) (o : ℚ × List BUpd × Nat) (h : binFit E G s r t v = some o) :
    bitOf o.2.1 = some ((s.bit_i + 1) % ncols v) := by
  rcases hch : binFitChain E s r t with ⟨ov, hn, tn⟩
  cases ov with
  | none => simp [binFit, hch] at h
  | some vn =>
    simp [binFit, hch, binPseudoLik] at h
    subst h
    simp [bitOf]

theorem gaussFit_loss (E : ExtF) (G : TGrad3) (s : GRBM) (r : Rng) (t : Nat)
    (v : Mat) (o : ℚ × List GUpd × Nat) (h : gaussFit E G s r t v = some o) :
    o.1 = gaussReconError E s v := by
  rcases hch : gaussFitChain E s r t with ⟨ov, hn, tn⟩
  cases ov with
  | none => simp [gaussFit, hch] at h
  | some vn =>
    simp [gaussFit, hch] at h
    subst h
    rfl

theorem flipRow_getD (row : Vec) (k j : Nat) :
    (row.enum.map (fun p => if p.1 = k then 1 - p.2 else p.2)).getD j 0 =
      if j = k ∧ j < row.length then 1 - row.getD j 0 else row.getD j 0 := by
  rw [List.getD_eq_getElem?_getD, List.getElem?_map, List.getElem?_enum,
    List.getD_eq_getElem?_getD]
  cases hrj : row[j]? with
  | none =>
    have hle : row.length ≤ j := List.getElem?_eq_none_iff.mp hrj
    have : ¬ j < row.length := Nat.not_lt.mpr hle
    simp [this]
  | some a =>
    have hlt : j < row.length := (List.getElem?_eq_some.mp hrj).1
    by_cases hjk : j = k
    · subst hjk
      simp [hrj, hlt]
    · simp [hrj, hjk]

theorem flipCol_getD (v : Mat) (k i j : Nat) :
    ((flipCol v k).getD i []).getD j 0 =
      if j = k ∧ j < (v.getD i []).length then 1 - (v.getD i []).getD j 0
      else (v.getD i []).getD j 0 := by
  have hrow : (flipCol v k).getD i [] =
      ((v.getD i []).enum.map (fun p => if p.1 = k then 1 - p.2 else p.2)) := by
    rw [flipCol, List.getD_eq_getElem?_getD, List.getElem?_map,
      List.getD_eq_getElem?_getD]
    cases hv : v[i]? with
    | none => simp
    | some row => simp
  rw [hrow, flipRow_getD]

/-- C4 (amended): the binary RBM's per-batch diagnostic perturbs exactly one
input dimension — column `bit_i`, flipped to `1 - x` — and the updates
dictionary advances the index deterministically to `(bit_i + 1) % n_visibles`;
the Gaussian RBM's diagnostic is the deterministic reconstruction error of
the whole input, with no perturbed dimension. -/
theorem C4_per_batch_diagnostic (E : ExtF) (G G₂ : TGrad3) (sB : BRBM)
    (sG : GRBM) (r r₂ : Rng) (t t₂ : Nat) (v w : Mat) (i j : Nat)
    (hKB : 1 ≤ sB.K) (hKG : 1 ≤ sG.K) :
    ((binFit E G sB r t v).map (fun o => bitOf o.2.1) =
        some (some ((sB.bit_i + 1) % ncols v))) ∧
      (((flipCol v sB.bit_i).getD i []).getD j 0 =
        if j = sB.bit_i ∧ j < (v.getD i []).length
          then 1 - (v.getD i []).getD j 0
          else (v.getD i []).getD j 0) ∧
      ((gaussFit E G₂ sG r₂ t₂ w).map (fun o => o.1) =
        some (gaussReconError E sG w)) := by
  refine ⟨?_, ?_, ?_⟩
  · obtain ⟨n, hn⟩ := Nat.exists_eq_add_of_le hKB
    have hk : sB.K = n + 1 := by omega
    have hch : binFitChain E sB r t =
        (some (binChainSpec E sB r t n).1, (binChainSpec E sB r t n).2.1,
          (binChainSpec E sB r t n).2.2) := by
      rw [binFitChain, hk]; exact binFitChainN_spec E sB r t n
    simp [binFit, hch, binPseudoLik, bitOf]
  · exact flipCol_getD v sB.bit_i i j
  · obtain ⟨n, hn⟩ := Nat.exists_eq_add_of_le hKG
    have hk : sG.K = n + 1 := by omega
    have hch : gaussFitChain E sG r₂ t₂ =
        (some (gaussChainSpec E sG r₂ t₂ n).1,
          (gaussChainSpec E sG r₂ t₂ n).2.1,
          (gaussChainSpec E sG r₂ t₂ n).2.2) := by
      rw [gaussFitChain, hk]; exact gaussFitChainN_spec E sG r₂ t₂ n
    simp [gaussFit, hch]

theorem C4_per_batch_diagnostic_witness :
    ((binFit E0 tg3 cexB rHalf 0 [[1]]).map (fun o => bitOf o.2.1) =
        some (some ((cexB.bit_i + 1) % ncols [[1]]))) ∧
      (((flipCol [[1]] cexB.bit_i).getD 0 []).getD 0 0 =
        if 0 = cexB.bit_i ∧ 0 < (([[1]] : Mat).getD 0 []).length
          then 1 - (([[1]] : Mat).getD 0 []).getD 0 0
          else (([[1]] : Mat).getD 0 []).getD 0 0) ∧
      ((gaussFit E0 tg3 cexG rHalf 0 [[1]]).map (fun o => o.1) =
        some (gaussReconError E0 cexG [[1]])) :=
  C4_per_batch_diagnostic E0 tg3 tg3 cexB cexG rHalf rHalf 0 0 [[1]] [[1]]
    0 0 (by decide) (by decide)

/-- C4 counterexample: the claim's "randomly chosen input dimension" is
false — the binary RBM's perturbed bit index emitted by `_fit` is the same
under every random stream (it is the deterministic counter
`(bit_i + 1) % n_visibles`), and the Gaussian RBM's reported diagnostic is
likewise insensitive to the random stream (it perturbs nothing). -/
theorem C4_claim_counterexample :
    ¬(C4BitRandomClaim ∨ C4GaussRandomClaim) := by
  rintro (⟨E, G, s, r₁, r₂, t, v, o₁, o₂, h₁, h₂, hne⟩ |
    ⟨E, G, s, r₁, r₂, t, v, o₁, o₂, h₁, h₂, hne⟩)
  · exact hne ((binFit_bitOf E G s r₁ t v o₁ h₁).trans
      (binFit_bitOf E G s r₂ t v o₂ h₂).symm)
  · exact hne ((gaussFit_loss E G s r₁ t v o₁ h₁).trans
      (gaussFit_loss E G s r₂ t v o₂ h₂).symm)

/-- C1 counterexample: at a concrete Gaussian RBM with `K = 1`, the chain of
`GaussianRBM._fit` does not draw the visible units — its negative sample
`[[5]]` is the conditional mean, while the claim's sample-the-visibles chain
yields `[[11/2]]` under the same random stream. -/
theorem C1_claim_counterexample :
    gaussFitChain E0 cexG rHalf 0 ≠
      (some (gaussChainClaim E0 cexG rHalf 0 0).1,
        (gaussChainClaim E0 cexG rHalf 0 0).2.1,
        (gaussChainClaim E0 cexG rHalf 0 0).2.2) := by
  decide

theorem rect_matMul (a b : Mat) : Rect (matMul a b) a.length (ncols b) := by
  constructor
  · simp [matMul]
  · intro row hrow
    simp [matMul] at hrow
    obtain ⟨r, _, rfl⟩ := hrow
    simp [transposeM]

theorem rect_addRow (m : Mat) (c : Vec) (rows cols : Nat)
    (hm : Rect m rows cols) (hc : c.length = cols) :
    Rect (addRow m c) rows cols := by
  constructor
  · simp [addRow, hm.1]
  · intro row hrow
    simp [addRow] at hrow
    obtain ⟨r, hr, rfl⟩ := hrow
    simp [hc, hm.2 r hr]

theorem rect_mapMat (f : ℚ → ℚ) (m : Mat) (rows cols : Nat)
    (hm : Rect m rows cols) : Rect (mapMat f m) rows cols := by
  constructor
  · simp [mapMat, hm.1]
  · intro row hrow
    simp [mapMat] at hrow
    obtain ⟨r, hr, rfl⟩ := hrow
    simp [hm.2 r hr]

theorem rect_bernMat (r : Rng) (t : Nat) (p : Mat) (rows cols : Nat)
    (hp : Rect p rows cols) : Rect (bernMat r t p) rows cols := by
  constructor
  · simp [bernMat, hp.1]
  · intro row hrow
    simp [bernMat] at hrow
    obtain ⟨q, qrow, hmem, rfl⟩ := hrow
    have hq : qrow ∈ p := List.snd_mem_of_mem_enum hmem
    simp [hp.2 qrow hq]

theorem rect_normMat (r : Rng) (t : Nat) (p : Mat) (rows cols : Nat)
    (hp : Rect p rows cols) : Rect (normMat r t p) rows cols := by
  constructor
  · simp [normMat, hp.1]
  · intro row hrow
    simp [normMat] at hrow
    obtain ⟨q, qrow, hmem, rfl⟩ := hrow
    have hq : qrow ∈ p := List.snd_mem_of_mem_enum hmem
    simp [hp.2 qrow hq]

theorem rect_ncols (m : Mat) (rows cols : Nat) (h : Rect m rows cols)
    (hr : 0 < rows) : ncols m = cols := by
  cases m with
  | nil => exact absurd (h.1 ▸ hr) (by simp)
  | cons row tl => simpa [ncols] using h.2 row (by simp)

theorem ncols_transposeM (m : Mat) (h : 0 < ncols m) :
    ncols (transposeM m) = m.length := by
  unfold transposeM
  obtain ⟨c, hc⟩ := Nat.exists_eq_add_of_le h
  have : ncols m = c + 1 := by omega
  rw [this, List.range_succ_eq_map]
  simp [ncols]

theorem rect_zerosM (rows cols : Nat) : Rect (zerosM rows cols) rows cols := by
  constructor
  · simp [zerosM]
  · intro row hrow
    have hr : row = zerosV cols :=
      List.eq_of_mem_replicate (by simpa [zerosM] using hrow)
    simp [hr, zerosV]

theorem ncols_gaussDraws (r : Rng) (t rows cols : Nat) (sc : ℚ)
    (h : 0 < rows) : ncols (gaussDraws r t rows cols sc) = cols := by
  unfold gaussDraws
  obtain ⟨c, hc⟩ := Nat.exists_eq_add_of_le h
  have : rows = c + 1 := by omega
  rw [this, List.range_succ_eq_map]
  simp [ncols]

theorem binMeanV_rect (E : ExtF) (s : BRBM) (nv : Nat) (hB : BWF nv s)
    (h : Mat) (hh : Rect h s.n_samples s.n_hiddens) :
    Rect (binMeanV E s h) s.n_samples nv := by
  have hW : ncols s.W = s.n_hiddens := rect_ncols _ _ _ hB.1 hB.2.2.2.2.2
  have ht : ncols (transposeM s.W) = nv := by
    rw [ncols_transposeM s.W (by rw [hW]; exact hB.2.2.2.2.1), hB.1.1]
  have h1 := rect_matMul h (transposeM s.W)
  rw [hh.1, ht] at h1
  exact rect_mapMat _ _ _ _ (rect_addRow _ _ _ _ h1 hB.2.1)

theorem binMeanH_rect (E : ExtF) (s : BRBM) (nv : Nat) (hB : BWF nv s)
    (v : Mat) (hv : Rect v s.n_samples nv) :
    Rect (binMeanH E s v) s.n_samples s.n_hiddens := by
  have hW : ncols s.W = s.n_hiddens := rect_ncols _ _ _ hB.1 hB.2.2.2.2.2
  have h1 := rect_matMul v s.W
  rw [hv.1, hW] at h1
  exact rect_mapMat _ _ _ _ (rect_addRow _ _ _ _ h1 hB.2.2.1)

theorem binChainN_rect (E : ExtF) (s : BRBM) (r : Rng) (nv : Nat)
    (hB : BWF nv s) : ∀ n t,
    Rect ((binFitChainN E s r t n).2.1) s.n_samples s.n_hiddens := by
  intro n
  induction n with
  | zero => intro t; simpa [binFitChainN] using hB.2.2.2.1
  | succ m ih =>
    intro t
    rw [binFitChainN_succ]
    have hprev := ih t
    have hv : Rect (binSampleV E s r (binFitChainN E s r t m).2.2
        (binFitChainN E s r t m).2.1).1 s.n_samples nv :=
      rect_bernMat _ _ _ _ _ (binMeanV_rect E s nv hB _ hprev)
    exact rect_bernMat _ _ _ _ _ (binMeanH_rect E s nv hB _ hv)

theorem gaussMeanV_rect (s : GRBM) (nv : Nat) (hG : GWF nv s)
    (h : Mat) (hh : Rect h s.n_samples s.n_hiddens) :
    Rect (gaussMeanV s h) s.n_samples nv := by
  have hW : ncols s.W = s.n_hiddens := rect_ncols _ _ _ hG.1 hG.2.2.2.2.2
  have ht : ncols (transposeM s.W) = nv := by
    rw [ncols_transposeM s.W (by rw [hW]; exact hG.2.2.2.2.1), hG.1.1]
  have h1 := rect_matMul h (transposeM s.W)
  rw [hh.1, ht] at h1
  exact rect_addRow _ _ _ _ h1 hG.2.1

theorem gaussMeanH_rect (E : ExtF) (s : GRBM) (nv : Nat) (hG : GWF nv s)
    (v : Mat) (hv : Rect v s.n_samples nv) :
    Rect (gaussMeanH E s v) s.n_samples s.n_hiddens := by
  have hW : ncols s.W = s.n_hiddens := rect_ncols _ _ _ hG.1 hG.2.2.2.2.2
  have h1 := rect_matMul v s.W
  rw [hv.1, hW] at h1
  exact rect_mapMat _ _ _ _ (rect_addRow _ _ _ _ h1 hG.2.2.1)

theorem gaussChainN_rect (E : ExtF) (s : GRBM) (r : Rng) (nv : Nat)
    (hG : GWF nv s) : ∀ n t,
    Rect ((gaussFitChainN E s r t n).2.1) s.n_samples s.n_hiddens := by
  intro n
  induction n with
  | zero => intro t; simpa [gaussFitChainN] using hG.2.2.2.1
  | succ m ih =>
    intro t
    rw [gaussFitChainN_succ]
    have hprev := ih t
    have hv : Rect (gaussMeanV s (gaussFitChainN E s r t m).2.1)
        s.n_samples nv := gaussMeanV_rect s nv hG _ hprev
    exact rect_bernMat _ _ _ _ _ (gaussMeanH_rect E s nv hG _ hv)

/-- C5: the fantasy particles are created by the `fit` initialization guard
— only when the weight matrix is still empty — with shape
`n_samples × n_hiddens`; a `fit` call on an already-initialized model (and,
with at least one hidden unit, any call after the first) leaves the state
untouched by the guard; and applying the updates of any successful `_fit`
step replaces `h_samples` by an array of exactly the same
`n_samples × n_hiddens` shape. -/
theorem C5_fantasy_particles (E : ExtF) (G G₂ : TGrad3) (ir ir₂ r r₂ : Rng)
    (t₀ t₁ t t₂ : Nat) (s0B : BRBM) (s0G : GRBM) (n_in n_inG : Nat)
    (sB : BRBM) (sG : GRBM) (nv nvG : Nat) (v w : Mat)
    (hB : BWF nv sB) (hG : GWF nvG sG) :
    ((ncols s0B.W = 0 →
        (binFitInit ir t₀ s0B n_in).1.h_samples =
            zerosM s0B.n_samples s0B.n_hiddens ∧
          Rect (binFitInit ir t₀ s0B n_in).1.h_samples
            s0B.n_samples s0B.n_hiddens) ∧
      (ncols s0B.W ≠ 0 → binFitInit ir t₀ s0B n_in = (s0B, t₀)) ∧
      (ncols s0B.W = 0 → 0 < n_in →
        ncols (binFitInit ir t₀ s0B n_in).1.W = s0B.n_hiddens) ∧
      (∀ oB : ℚ × List BUpd × Nat, binFit E G sB r t v = some oB →
        Rect (applyBUpds sB oB.2.1).h_samples sB.n_samples sB.n_hiddens)) ∧
    ((ncols s0G.W = 0 →
        (gaussFitInit ir₂ t₁ s0G n_inG).1.h_samples =
            zerosM s0G.n_samples s0G.n_hiddens ∧
          Rect (gaussFitInit ir₂ t₁ s0G n_inG).1.h_samples
            s0G.n_samples s0G.n_hiddens) ∧
      (ncols s0G.W ≠ 0 → gaussFitInit ir₂ t₁ s0G n_inG = (s0G, t₁)) ∧
      (ncols s0G.W = 0 → 0 < n_inG →
        ncols (gaussFitInit ir₂ t₁ s0G n_inG).1.W = s0G.n_hiddens) ∧
      (∀ oG : ℚ × List GUpd × Nat, gaussFit E G₂ sG r₂ t₂ w = some oG →
        Rect (applyGUpds sG oG.2.1).h_samples sG.n_samples sG.n_hiddens)) := by
  constructor
  · refine ⟨?_, ?_, ?_, ?_⟩
    · intro h0
      constructor
      · simp [binFitInit, h0]
      · simp only [binFitInit, h0, if_pos]
        exact rect_zerosM _ _
    · intro h0
      simp [binFitInit, h0]
    · intro h0 hn
      simp only [binFitInit, h0, if_pos]
      exact ncols_gaussDraws ir t₀ n_in s0B.n_hiddens (1 / 100) hn
    · intro oB hfB
      rcases hch : binFitChain E sB r t with ⟨ov, hn, tn⟩
      cases ov with
      | none => simp [binFit, hch] at hfB
      | some vn =>
        simp [binFit, hch, binPseudoLik] at hfB
        subst hfB
        have hrect : Rect hn sB.n_samples sB.n_hiddens := by
          have := binChainN_rect E sB r nv hB sB.K t
          rw [show binFitChainN E sB r t sB.K = binFitChain E sB r t from rfl,
            hch] at this
          exact this
        simpa [applyBUpds, applyBUpd] using hrect
  · refine ⟨?_, ?_, ?_, ?_⟩
    · intro h0
      constructor
      · simp [gaussFitInit, h0]
      · simp only [gaussFitInit, h0, if_pos]
        exact rect_zerosM _ _
    · intro h0
      simp [gaussFitInit, h0]
    · intro h0 hn
      simp only [gaussFitInit, h0, if_pos]
      exact ncols_gaussDraws ir₂ t₁ n_inG s0G.n_hiddens (1 / 100) hn
    · intro oG hfG
      rcases hch : gaussFitChain E sG r₂ t₂ with ⟨ov, hn, tn⟩
      cases ov with
      | none => simp [gaussFit, hch] at hfG
      | some vn =>
        simp [gaussFit, hch] at hfG
        subst hfG
        have hrect : Rect hn sG.n_samples sG.n_hiddens := by
          have := gaussChainN_rect E sG r₂ nvG hG sG.K t₂
          rw [show gaussFitChainN E sG r₂ t₂ sG.K =
            gaussFitChain E sG r₂ t₂ from rfl, hch] at this
          exact this
        simpa [applyGUpds, applyGUpd] using hrect

theorem C5_fantasy_particles_witness :
    ((ncols cexB.W = 0 →
        (binFitInit rHalf 0 cexB 1).1.h_samples =
            zerosM cexB.n_samples cexB.n_hiddens ∧
          Rect (binFitInit rHalf 0 cexB 1).1.h_samples
            cexB.n_samples cexB.n_hiddens) ∧
      (ncols cexB.W ≠ 0 → binFitInit rHalf 0 cexB 1 = (cexB, 0)) ∧
      (ncols cexB.W = 0 → 0 < 1 →
        ncols (binFitInit rHalf 0 cexB 1).1.W = cexB.n_hiddens) ∧
      (∀ oB : ℚ × List BUpd × Nat, binFit E0 tg3 cexB rHalf 0 [[1]] = some oB →
        Rect (applyBUpds cexB oB.2.1).h_samples cexB.n_samples cexB.n_hiddens)) ∧
    ((ncols cexG.W = 0 →
        (gaussFitInit rHalf 0 cexG 1).1.h_samples =
            zerosM cexG.n_samples cexG.n_hiddens ∧
          Rect (gaussFitInit rHalf 0 cexG 1).1.h_samples
            cexG.n_samples cexG.n_hiddens) ∧
      (ncols cexG.W ≠ 0 → gaussFitInit rHalf 0 cexG 1 = (cexG, 0)) ∧
      (ncols cexG.W = 0 → 0 < 1 →
        ncols (gaussFitInit rHalf 0 cexG 1).1.W = cexG.n_hiddens) ∧
      (∀ oG : ℚ × List GUpd × Nat, gaussFit E0 tg3 cexG rHalf 0 [[1]] = some oG →
        Rect (applyGUpds cexG oG.2.1).h_samples cexG.n_samples cexG.n_hiddens)) :=
  C5_fantasy_particles E0 tg3 tg3 rHalf rHalf rHalf rHalf 0 0 0 0 cexB cexG
    1 1 cexB cexG 1 1 [[1]] [[1]] (by decide) (by decide)

theorem abs_clip15_le (g : ℚ) : |clip15 g| ≤ 15 := by
  rw [abs_le, clip15]
  constructor
  · exact le_max_left _ _
  · exact max_le (by norm_num) (min_le_right _ _)

theorem map_clip_getD_bound (lr : ℚ) (hlr : 0 ≤ lr) (row : Vec) (j : Nat) :
    |(row.map (fun x => lr * clip15 x)).getD j 0| ≤ 15 * lr := by
  have h15 : (0 : ℚ) ≤ 15 * lr := by positivity
  rw [List.getD_eq_getElem?_getD, List.getElem?_map]
  cases hrj : row[j]? with
  | none => simpa using h15
  | some x =>
    simp only [Option.map_some', Option.getD_some]
    calc |lr * clip15 x| = |lr| * |clip15 x| := abs_mul _ _
      _ = lr * |clip15 x| := by rw [abs_of_nonneg hlr]
      _ ≤ lr * 15 := mul_le_mul_of_nonneg_left (abs_clip15_le x) hlr
      _ = 15 * lr := mul_comm _ _

theorem smul_clipM_entry_bound (lr : ℚ) (hlr : 0 ≤ lr) (m : Mat)
    (i j : Nat) :
    |((smulMat lr (clipM m)).getD i []).getD j 0| ≤ 15 * lr := by
  have h1 : (smulMat lr (clipM m)).getD i [] =
      (m.getD i []).map (fun x => lr * clip15 x) := by
    rw [List.getD_eq_getElem?_getD (smulMat lr (clipM m)) i [],
      List.getD_eq_getElem?_getD m i []]
    simp only [smulMat, clipM, mapMat, List.getElem?_map, List.map_map,
      Function.comp_def]
    cases m[i]? <;> simp
  rw [h1]
  exact map_clip_getD_bound lr hlr _ j

theorem smul_clipV_entry_bound (lr : ℚ) (hlr : 0 ≤ lr) (v : Vec) (j : Nat) :
    |(smulVec lr (clipV v)).getD j 0| ≤ 15 * lr := by
  have h1 : smulVec lr (clipV v) = v.map (fun x => lr * clip15 x) := by
    simp [smulVec, clipV, List.map_map, Function.comp_def]
  rw [h1]
  exact map_clip_getD_bound lr hlr v j

/-- C9: `RNN.train` updates every parameter by
`param - learning_rate * clip(g)` where `clip` clamps each gradient entry to
`[-15, 15]`; consequently, with a nonnegative learning rate, every entry of
every applied update has magnitude at most `15 * learning_rate`. -/
theorem C9_rnn_gradient_clipping (E : ExtF) (G : TGradR) (s : RNNst)
    (x y : Mat) (gm : Mat) (gv : Vec) (z : ℚ) (i j k : Nat)
    (hlr : 0 ≤ s.learning_rate) :
    rnnTrain E G s x y =
      { s with
          W := subMat s.W (smulMat s.learning_rate
            (clipM (G (fun p => rnnCostP E p s.h0 x y)
              (s.W, s.U, s.V, s.b, s.c)).1))
          U := subMat s.U (smulMat s.learning_rate
            (clipM (G (fun p => rnnCostP E p s.h0 x y)
              (s.W, s.U, s.V, s.b, s.c)).2.1))
          V := subMat s.V (smulMat s.learning_rate
            (clipM (G (fun p => rnnCostP E p s.h0 x y)
              (s.W, s.U, s.V, s.b, s.c)).2.2.1))
          b := subVec s.b (smulVec s.learning_rate
            (clipV (G (fun p => rnnCostP E p s.h0 x y)
              (s.W, s.U, s.V, s.b, s.c)).2.2.2.1))
          c := subVec s.c (smulVec s.learning_rate
            (clipV (G (fun p => rnnCostP E p s.h0 x y)
              (s.W, s.U, s.V, s.b, s.c)).2.2.2.2)) } ∧
      (-15 ≤ clip15 z ∧ clip15 z ≤ 15) ∧
      |((smulMat s.learning_rate (clipM gm)).getD i []).getD j 0| ≤
        15 * s.learning_rate ∧
      |(smulVec s.learning_rate (clipV gv)).getD k 0| ≤
        15 * s.learning_rate := by
  refine ⟨rfl, ?_, ?_, ?_⟩
  · have := abs_clip15_le z
    rw [abs_le] at this
    exact this
  · exact smul_clipM_entry_bound _ hlr gm i j
  · exact smul_clipV_entry_bound _ hlr gv k

theorem C9_rnn_gradient_clipping_witness :
    rnnTrain E0 tgR cexR [[1]] [[1]] =
      { cexR with
          W := subMat cexR.W (smulMat cexR.learning_rate
            (clipM (tgR (fun p => rnnCostP E0 p cexR.h0 [[1]] [[1]])
              (cexR.W, cexR.U, cexR.V, cexR.b, cexR.c)).1))
          U := subMat cexR.U (smulMat cexR.learning_rate
            (clipM (tgR (fun p => rnnCostP E0 p cexR.h0 [[1]] [[1]])
              (cexR.W, cexR.U, cexR.V, cexR.b, cexR.c)).2.1))
          V := subMat cexR.V (smulMat cexR.learning_rate
            (clipM (tgR (fun p => rnnCostP E0 p cexR.h0 [[1]] [[1]])
              (cexR.W, cexR.U, cexR.V, cexR.b, cexR.c)).2.2.1))
          b := subVec cexR.b (smulVec cexR.learning_rate
            (clipV (tgR (fun p => rnnCostP E0 p cexR.h0 [[1]] [[1]])
              (cexR.W, cexR.U, cexR.V, cexR.b, cexR.c)).2.2.2.1))
          c := subVec cexR.c (smulVec cexR.learning_rate
            (clipV (tgR (fun p => rnnCostP E0 p cexR.h0 [[1]] [[1]])
              (cexR.W, cexR.U, cexR.V, cexR.b, cexR.c)).2.2.2.2)) } ∧
      (-15 ≤ clip15 20 ∧ clip15 20 ≤ 15) ∧
      |((smulMat cexR.learning_rate (clipM [[20]])).getD 0 []).getD 0 0| ≤
        15 * cexR.learning_rate ∧
      |(smulVec cexR.learning_rate (clipV [-20])).getD 0 0| ≤
        15 * cexR.learning_rate :=
  C9_rnn_gradient_clipping E0 tgR cexR [[1]] [[1]] [[20]] [-20] 20 0 0 0
    (by decide)

/-- C10: the RBM query and sampling operations `mean_h`, `sample_h`,
`mean_v`, `sample_v`, `gibbs` and `free_energy` build no updates dictionary,
so a call leaves the model state — parameters and fantasy particles —
unchanged, advancing only the sampling stream; moreover their outputs read
only the parameters `W`, `b`, `c`, never the training state.  Only `_fit`
(applied through `fit`) emits state updates. -/
theorem C10_query_frame (E : ExtF) (sB s₁ s₂ : BRBM) (sG g₁ g₂ : GRBM)
    (r : Rng) (t : Nat) (op : RBMOp)
    (h12 : s₁.W = s₂.W ∧ s₁.b = s₂.b ∧ s₁.c = s₂.c)
    (hg12 : g₁.W = g₂.W ∧ g₁.b = g₂.b ∧ g₁.c = g₂.c) :
    (binQuery E sB r t op).2.1 = sB ∧
      (gaussQuery E sG r t op).2.1 = sG ∧
      (binQuery E s₁ r t op).1 = (binQuery E s₂ r t op).1 ∧
      (gaussQuery E g₁ r t op).1 = (gaussQuery E g₂ r t op).1 := by
  obtain ⟨hW, hb, hc⟩ := h12
  obtain ⟨hgW, hgb, hgc⟩ := hg12
  refine ⟨?_, ?_, ?_, ?_⟩
  · cases op <;> rfl
  · cases op <;> rfl
  · cases op <;>
      simp [binQuery, binMeanH, binSampleH, binMeanV, binSampleV, binGibbs,
        binFreeEnergy, binFreeEnergyP, hW, hb, hc]
  · cases op <;>
      simp [gaussQuery, gaussMeanH, gaussSampleH, gaussMeanV, gaussSampleV,
        gaussGibbs, gaussFreeEnergy, gaussFreeEnergyP, hgW, hgb, hgc]

theorem str_ext (s t : String) (h : s.data = t.data) : s = t := by
  cases s; cases t; exact congrArg String.mk h

theorem fsGet_fsSet (fs : FS) (k k' : String) (a : NpArr) :
    fsGet (fsSet fs k a) k' = if k' = k then some a else fsGet fs k' := by
  by_cases h : k' = k
  · subst h
    simp [fsGet, fsSet, List.find?]
  · have h2 : ¬(k = k') := fun hh => h hh.symm
    simp [fsGet, fsSet, List.find?, h, h2]

theorem wkey_ne_bkey (i j : Nat) : wkey i ≠ bkey j := by
  intro h
  have h2 := congrArg String.data h
  rw [wkey, bkey, String.data_append, String.data_append,
    String.data_append, String.data_append] at h2
  have hW : ("W_" : String).data = ['W', '_'] := rfl
  have hb : ("b_" : String).data = ['b', '_'] := rfl
  rw [hW, hb] at h2
  simp only [List.cons_append, List.nil_append] at h2
  injection h2 with h3 _
  exact absurd h3 (by decide)

theorem wkey_toString (i j : Nat) (h : wkey i = wkey j) :
    toString i = toString j := by
  have h2 := congrArg String.data h
  rw [wkey, wkey, String.data_append, String.data_append,
    String.data_append, String.data_append] at h2
  simp only [List.append_assoc] at h2
  have h3 := List.append_cancel_left h2
  have h4 := List.append_cancel_right h3
  exact str_ext _ _ h4

theorem bkey_toString (i j : Nat) (h : bkey i = bkey j) :
    toString i = toString j := by
  have h2 := congrArg String.data h
  rw [bkey, bkey, String.data_append, String.data_append,
    String.data_append, String.data_append] at h2
  simp only [List.append_assoc] at h2
  have h3 := List.append_cancel_left h2
  have h4 := List.append_cancel_right h3
  exact str_ext _ _ h4

theorem saveFold_get_other (m : MLPst) (items : List (Nat × BLayer)) :
    ∀ (fs : FS) (k : String),
      (∀ il ∈ items, k ≠ wkey il.1 ∧ k ≠ bkey il.1) →
      fsGet (items.foldl (saveStep m) fs) k = fsGet fs k := by
  induction items with
  | nil => intro fs k _; rfl
  | cons il rest ih =>
    intro fs k hk
    rw [List.foldl_cons, ih _ _ (fun x hx => hk x (List.mem_cons_of_mem _ hx))]
    have h1 := hk il (List.mem_cons_self _ _)
    simp [saveStep, fsGet_fsSet, h1.1, h1.2]

theorem saveFold_get_mem (m : MLPst) (items : List (Nat × BLayer)) :
    ∀ (fs : FS),
      ((items.map (fun il => toString il.1)).Nodup) →
      ∀ il ∈ items,
        fsGet (items.foldl (saveStep m) fs) (wkey il.1) =
          some (NpArr.arrM (m.Wstore.getD il.2.Wid [])) ∧
        fsGet (items.foldl (saveStep m) fs) (bkey il.1) =
          some (NpArr.arrV (m.bstore.getD il.2.bid [])) := by
  induction items with
  | nil => intro fs _ il h; simp at h
  | cons hd rest ih =>
    intro fs hnd il hmem
    rw [List.map_cons, List.nodup_cons] at hnd
    rcases List.mem_cons.mp hmem with heq | hrest
    · subst heq
      rw [List.foldl_cons]
      have hmemmap : ∀ il' ∈ rest,
          toString il.1 ≠ toString il'.1 := by
        intro il' hil' hteq
        exact hnd.1 (hteq ▸ List.mem_map_of_mem _ hil')
      have hotherW : ∀ il' ∈ rest,
          wkey il.1 ≠ wkey il'.1 ∧ wkey il.1 ≠ bkey il'.1 := by
        intro il' hil'
        exact ⟨fun hw => hmemmap il' hil' (wkey_toString _ _ hw),
          wkey_ne_bkey _ _⟩
      have hotherB : ∀ il' ∈ rest,
          bkey il.1 ≠ wkey il'.1 ∧ bkey il.1 ≠ bkey il'.1 := by
        intro il' hil'
        exact ⟨fun hw => wkey_ne_bkey _ _ hw.symm,
          fun hw => hmemmap il' hil' (bkey_toString _ _ hw)⟩
      constructor
      · rw [saveFold_get_other m rest _ _ hotherW]
        simp [saveStep, fsGet_fsSet, wkey_ne_bkey il.1 il.1]
      · rw [saveFold_get_other m rest _ _ hotherB]
        simp [saveStep, fsGet_fsSet]
    · rw [List.foldl_cons]
      exact ih _ hnd.2 il hrest

theorem set_getD_self {α : Type} (l : List α) (n : Nat) (d : α) :
    l.set n (l.getD n d) = l := by
  induction l generalizing n with
  | nil => rfl
  | cons a tl ih =>
    cases n with
    | zero => rfl
    | succ k =>
      show a :: tl.set k (tl.getD k d) = a :: tl
      rw [ih]

theorem mlpLoadAux_roundtrip (m : MLPst) (fs' : FS) :
    ∀ items : List (Nat × BLayer),
      (∀ il ∈ items,
        fsGet fs' (wkey il.1) =
            some (NpArr.arrM (m.Wstore.getD il.2.Wid [])) ∧
          fsGet fs' (bkey il.1) =
            some (NpArr.arrV (m.bstore.getD il.2.bid []))) →
      mlpLoadAux fs' items m.Wstore m.bstore = some (m.Wstore, m.bstore) := by
  intro items
  induction items with
  | nil => intro _; rfl
  | cons il rest ih =>
    intro hfetch
    have h := hfetch il (List.mem_cons_self _ _)
    simp only [mlpLoadAux, h.1, h.2]
    rw [set_getD_self, set_getD_self]
    exact ih (fun x hx => hfetch x (List.mem_cons_of_mem _ hx))

theorem mlp_roundtrip (m : MLPst) (fs : FS)
    (hnd : (m.layers.enum.map (fun il => toString il.1)).Nodup) :
    mlpLoad (mlpSave m fs) m = some m := by
  have hfetch := saveFold_get_mem m m.layers.enum fs hnd
  rw [mlpLoad, mlpSave]
  rw [mlpLoadAux_roundtrip m _ m.layers.enum hfetch]
  rfl

theorem setKey_ne (c₁ c₂ : Char) (h : c₁ ≠ c₂) (tag : Option String) :
    setKey c₁ tag ≠ setKey c₂ tag := by
  intro he
  have h2 := congrArg String.data he
  rw [setKey, setKey, String.data_append, String.data_append,
    String.data_append, String.data_append, String.data_append,
    String.data_append] at h2
  simp only [List.append_assoc] at h2
  have h3 := List.append_cancel_left h2
  have hc1 : (String.singleton c₁).data = [c₁] := rfl
  have hc2 : (String.singleton c₂).data = [c₂] := rfl
  rw [hc1, hc2] at h3
  simp only [List.cons_append, List.nil_append] at h3
  injection h3 with h4 _
  exact h h4

/-- C6 (amended): saving then loading reproduces the model state and hence
bit-identical inference outputs when the files are loaded back into the
same model (the general claim fails for a fresh model of the same layer
structure, whose rectifier masks are drawn anew and are not persisted); each
parameter array is persisted under a file named after the parameter — layer
index for the MLP, parameter letter plus optional tag suffix for the
SetRBM. -/
theorem C6_save_load_roundtrip (E : ExtF) (m : MLPst) (fs fs₂ : FS)
    (x : Mat) (r r' : Rng) (t t' : Nat) (s : SRBM) (tag : Option String)
    (hnd : (m.layers.enum.map (fun il => toString il.1)).Nodup) :
    mlpLoad (mlpSave m fs) m = some m ∧
      (∀ m', mlpLoad (mlpSave m fs) m = some m' →
        mlpOutput E m' r t x = mlpOutput E m r' t' x) ∧
      fsGet (setSave s tag fs₂) (setKey 'W' tag) = some (NpArr.arrM s.W) ∧
      fsGet (setSave s tag fs₂) (setKey 'U' tag) = some (NpArr.arrM s.U) ∧
      fsGet (setSave s tag fs₂) (setKey 'b' tag) = some (NpArr.arrV s.b) ∧
      fsGet (setSave s tag fs₂) (setKey 'c' tag) = some (NpArr.arrV s.c) ∧
      fsGet (setSave s tag fs₂) (setKey 'd' tag) = some (NpArr.arrV s.d) := by
  have hrt := mlp_roundtrip m fs hnd
  refine ⟨hrt, ?_, ?_, ?_, ?_, ?_, ?_⟩
  · intro m' hm'
    rw [hrt] at hm'
    have : m' = m := by injection hm' with h; exact h.symm
    subst this
    exact mlpOutput_rng E m' r r' t t' x
  · simp [setSave, fsGet_fsSet, setKey_ne 'W' 'd' (by decide) tag,
      setKey_ne 'W' 'c' (by decide) tag, setKey_ne 'W' 'b' (by decide) tag,
      setKey_ne 'W' 'U' (by decide) tag]
  · simp [setSave, fsGet_fsSet, setKey_ne 'U' 'd' (by decide) tag,
      setKey_ne 'U' 'c' (by decide) tag, setKey_ne 'U' 'b' (by decide) tag]
  · simp [setSave, fsGet_fsSet, setKey_ne 'b' 'd' (by decide) tag,
      setKey_ne 'b' 'c' (by decide) tag]
  · simp [setSave, fsGet_fsSet, setKey_ne 'c' 'd' (by decide) tag]
  · simp [setSave, fsGet_fsSet]

theorem C6_save_load_roundtrip_witness :
    mlpLoad (mlpSave mlpA []) mlpA = some mlpA ∧
      (∀ m', mlpLoad (mlpSave mlpA []) mlpA = some m' →
        mlpOutput EA m' rZero 0 [[1]] = mlpOutput EA mlpA rZero 0 [[1]]) ∧
      fsGet (setSave cexS (some "t") []) (setKey 'W' (some "t")) =
        some (NpArr.arrM cexS.W) ∧
      fsGet (setSave cexS (some "t") []) (setKey 'U' (some "t")) =
        some (NpArr.arrM cexS.U) ∧
      fsGet (setSave cexS (some "t") []) (setKey 'b' (some "t")) =
        some (NpArr.arrV cexS.b) ∧
      fsGet (setSave cexS (some "t") []) (setKey 'c' (some "t")) =
        some (NpArr.arrV cexS.c) ∧
      fsGet (setSave cexS (some "t") []) (setKey 'd' (some "t")) =
        some (NpArr.arrV cexS.d) :=
  C6_save_load_roundtrip EA mlpA [] [] [[1]] rZero rZero 0 0 cexS
    (some "t") (by decide)

/-- C6 counterexample: saving a concrete two-layer MLP (rectifier then
softmax) and loading its parameters into a freshly constructed model of the
same layer structure does not reproduce its outputs — the fresh clean
rectifier mask `[1, -1]` differs from the original `[1, 1]`, and on the
input `[[1]]` the original model answers class 0 while the loaded model
answers class 1. -/
theorem C6_claim_counterexample : ¬ C6Claim := by
  intro h
  have h2 := h EA mlpA mlpB mlpB' [] [[1]] rZero rZero 0 0
    (by decide) (by decide)
  exact absurd h2 (by decide)

theorem buildNoisy_length (E : ExtF) (ir : Rng) (lastSp : LKind × Nat) :
    ∀ (specs : List (LKind × Nat)) (curIn t : Nat) (ws : List Mat)
      (bs : List Vec) (acc : List BLayer),
      (buildNoisy E ir lastSp specs curIn t ws bs acc).1.length =
        acc.length + specs.length := by
  intro specs
  induction specs with
  | nil => intro curIn t ws bs acc; simp [buildNoisy]
  | cons sp rest ih =>
    intro curIn t ws bs acc
    rw [buildNoisy]
    rw [ih]
    simp
    omega

theorem buildClean_share (E : ExtF) (ir : Rng) (lastSp : LKind × Nat) :
    ∀ (specs' : List (LKind × Nat)) (base : List BLayer),
      specs'.length = base.length →
      ∀ (curIn t : Nat) (acc : List BLayer),
        ∃ built,
          (buildClean E ir lastSp (specs'.zip base) curIn t acc).1 =
              acc.reverse ++ built ∧
            List.Forall₂ (fun cl nl => cl.Wid = nl.Wid ∧ cl.bid = nl.bid)
              built base := by
  intro specs'
  induction specs' with
  | nil =>
    intro base hlen curIn t acc
    have : base = [] := List.eq_nil_of_length_eq_zero (by simpa using hlen.symm)
    subst this
    exact ⟨[], by simp [buildClean], List.Forall₂.nil⟩
  | cons sp rest ih =>
    intro base hlen curIn t acc
    cases base with
    | nil => simp at hlen
    | cons bl bt =>
      have hlen' : rest.length = bt.length := by
        simpa using hlen
      rw [List.zip_cons_cons, buildClean]
      obtain ⟨built, heq, hf⟩ := ih bt hlen' sp.2
        (if maskOn sp lastSp then t + curIn * sp.2 + sp.2 else t + curIn * sp.2)
        (⟨sp.1, curIn, sp.2, bl.Wid, bl.bid,
          if maskOn sp lastSp then some (drawMask ir (t + curIn * sp.2) sp.2)
          else none⟩ :: acc)
      refine ⟨⟨sp.1, curIn, sp.2, bl.Wid, bl.bid,
        if maskOn sp lastSp then some (drawMask ir (t + curIn * sp.2) sp.2)
        else none⟩ :: built, ?_, List.Forall₂.cons ⟨rfl, rfl⟩ hf⟩
      rw [heq]
      simp

theorem forall₂_getD {α : Type} (R : α → α → Prop) (d : α) (hR : R d d) :
    ∀ {l₁ l₂ : List α}, List.Forall₂ R l₁ l₂ →
      ∀ i, R (l₁.getD i d) (l₂.getD i d) := by
  intro l₁ l₂ h
  induction h with
  | nil => intro i; simpa using hR
  | cons hrel _ ih =>
    intro i
    cases i with
    | zero => exact hrel
    | succ k => exact ih k

/-- C8: in every constructed MLP, clean layer `i` aliases exactly the shared
weight and bias variables of noisy layer `i` (so a training update to the
noisy stack's parameters is read by the clean stack); the clean stack pools
the set dimension by columnwise max before the final layer and applies no
dropout (it equals the claim-side clean-stack evaluation); and `_output` and
`transform` are computed from the clean stack and the shared stores only. -/
theorem C8_clean_stack_sharing (E E' : ExtF) (ir : Rng) (t0 nIn : Nat)
    (specs : List (LKind × Nat)) (hd : ℚ) :
    (let m := mlpInit E ir t0 nIn specs hd;
      (∀ i, (m.clean_layers.getD i dummyL).Wid =
            (m.layers.getD i dummyL).Wid ∧
          (m.clean_layers.getD i dummyL).bid =
            (m.layers.getD i dummyL).bid) ∧
        m.clean_layers.length = m.layers.length ∧
        (∀ (lr : ℚ) (gws : List Mat) (gbs : List Vec) (i : Nat),
          (trainerStep lr m gws gbs).Wstore.getD
              (m.clean_layers.getD i dummyL).Wid [] =
            (trainerStep lr m gws gbs).Wstore.getD
              (m.layers.getD i dummyL).Wid [] ∧
          (trainerStep lr m gws gbs).bstore.getD
              (m.clean_layers.getD i dummyL).bid [] =
            (trainerStep lr m gws gbs).bstore.getD
              (m.layers.getD i dummyL).bid [])) ∧
      (∀ (m' : MLPst) (r : Rng) (t : Nat) (x : Mat),
        evalStack E' m'.Wstore m'.bstore false m'.hidden_dropout r t
            m'.clean_layers x =
          cleanStackSpec E' m' x) ∧
      (∀ (m₁ m₂ : MLPst) (r₁ r₂ : Rng) (t₁ t₂ : Nat) (x : Mat),
        m₁.clean_layers = m₂.clean_layers → m₁.Wstore = m₂.Wstore →
        m₁.bstore = m₂.bstore → m₁.hidden_dropout = m₂.hidden_dropout →
        mlpOutput E' m₁ r₁ t₁ x = mlpOutput E' m₂ r₂ t₂ x ∧
          mlpTransform E' m₁ x = mlpTransform E' m₂ x) := by
  refine ⟨?_, ?_, ?_⟩
  · have hlen : specs.length =
        (buildNoisy E ir (specsLast specs) specs nIn t0 [] [] []).1.length := by
      rw [buildNoisy_length]
      simp
    obtain ⟨built, heq, hf⟩ := buildClean_share E ir (specsLast specs) specs
      (buildNoisy E ir (specsLast specs) specs nIn t0 [] [] []).1 hlen nIn
      (buildNoisy E ir (specsLast specs) specs nIn t0 [] [] []).2.2.2 []
    have hclean : (mlpInit E ir t0 nIn specs hd).clean_layers = built := by
      simp [mlpInit]
      rw [heq]
      simp
    have hlayers : (mlpInit E ir t0 nIn specs hd).layers =
        (buildNoisy E ir (specsLast specs) specs nIn t0 [] [] []).1 := rfl
    have hgetD := forall₂_getD
      (fun cl nl => cl.Wid = nl.Wid ∧ cl.bid = nl.bid) dummyL ⟨rfl, rfl⟩ hf
    refine ⟨?_, ?_, ?_⟩
    · intro i
      rw [hclean, hlayers]
      exact hgetD i
    · rw [hclean, hlayers]
      exact hf.length_eq
    · intro lr gws gbs i
      have h1 := hgetD i
      rw [hclean, hlayers, h1.1, h1.2]
      exact ⟨rfl, rfl⟩
  · intro m' r t x
    unfold evalStack cleanStackSpec
    cases m'.clean_layers.getLast? <;> simp
  · intro m₁ m₂ r₁ r₂ t₁ t₂ x h1 h2 h3 h4
    constructor
    · unfold mlpOutput
      rw [h1, h2, h3, h4]
      rw [evalStack_clean_rng E' m₂.Wstore m₂.bstore m₂.hidden_dropout
        r₁ r₂ t₁ t₂]
    · unfold mlpTransform
      rw [h1, h2, h3]

theorem C10_query_frame_witness :
    (binQuery E0 cexB rHalf 0 (RBMOp.opGibbs [[1]])).2.1 = cexB ∧
      (gaussQuery E0 cexG rHalf 0 (RBMOp.opGibbs [[1]])).2.1 = cexG ∧
      (binQuery E0 cexB rHalf 0 (RBMOp.opGibbs [[1]])).1 =
        (binQuery E0 cexB rHalf 0 (RBMOp.opGibbs [[1]])).1 ∧
      (gaussQuery E0 cexG rHalf 0 (RBMOp.opGibbs [[1]])).1 =
        (gaussQuery E0 cexG rHalf 0 (RBMOp.opGibbs [[1]])).1 :=
  C10_query_frame E0 cexB cexB cexB cexG cexG cexG rHalf 0
    (RBMOp.opGibbs [[1]]) (by decide) (by decide)

end ML
